import Mathlib

set_option maxRecDepth 100000

/-!
Verification development for the ShopifyLinesheet repository.

The Python source is shallowly embedded: strings are `List Char`, Python
floats arising from the spreadsheet cells are exact fractions (`Frac`),
Python dicts are association lists with replace-in-place insertion, and
code paths that can raise an uncaught exception return `Except`.
Definitions are transcribed from the source files
(`helpers/utils.py`, `helpers/column_mapper.py`, `backend/data_processor.py`,
`helpers/description_generator.py`, `core/workflow_manager.py`).
-/

/-! ## String primitives (Python `str` operations on `List Char`) -/

/-- Python strings are modelled as lists of characters. -/
abbrev Str := List Char

/-- Python `str.strip()`: drop whitespace from both ends. -/
def pyStrip (s : Str) : Str :=
  ((s.dropWhile Char.isWhitespace).reverse.dropWhile Char.isWhitespace).reverse

/-- Python `str.lower()` (ASCII case folding, enough for this code base). -/
def pyLower (s : Str) : Str := s.map Char.toLower

/-- Python `str.upper()`. -/
def pyUpper (s : Str) : Str := s.map Char.toUpper

/-- Helper for `splitChar`: accumulates the current piece in reverse. -/
def splitCharAux (c : Char) : Str → Str → List Str
  | [], acc => [acc.reverse]
  | x :: xs, acc =>
      if x = c then acc.reverse :: splitCharAux c xs []
      else splitCharAux c xs (x :: acc)

/-- Python `s.split(c)` for a single-character separator. -/
def splitChar (c : Char) (s : Str) : List Str := splitCharAux c s []

/-- Python `",".join(pieces)`. -/
def joinComma : List Str → Str
  | [] => []
  | [s] => s
  | s :: rest => s ++ ',' :: joinComma rest

/-- Python `s.count(c)` for a single character. -/
def countChar (c : Char) (s : Str) : Nat := (s.filter (fun x => x = c)).length

/-- Decimal value of a digit list (used for Python `int`/`float` parsing). -/
def natOfDigits (l : Str) : Nat := l.foldl (fun a c => a * 10 + (c.toNat - 48)) 0

/-! ## Exact fractions standing in for Python floats

Python `float` arithmetic in this code base only ever parses decimal
literals and compares or truncates them, so exact rational values are a
faithful model on every value the code actually handles. -/

/-- An exact fraction with a positive denominator. -/
structure Frac where
  num : Int
  den : Nat
  den_pos : 0 < den
deriving DecidableEq

/-- Embed a natural number. -/
def Frac.ofNat (n : Nat) : Frac := ⟨n, 1, Nat.one_pos⟩

/-- Strict comparison by cross multiplication. -/
def Frac.blt (x y : Frac) : Bool := decide (x.num * (y.den : Int) < y.num * (x.den : Int))

/-- Non-strict comparison by cross multiplication. -/
def Frac.ble (x y : Frac) : Bool := decide (x.num * (y.den : Int) ≤ y.num * (x.den : Int))

/-- Equality test as values (Python `==` on numbers). -/
def Frac.beq (x y : Frac) : Bool := decide (x.num * (y.den : Int) = y.num * (x.den : Int))

/-- Python `x >= 0`. -/
def Frac.bnonneg (x : Frac) : Bool := decide (0 ≤ x.num)

/-- Python `x == 0` (also Python truthiness: a float is falsy iff it is zero). -/
def Frac.bzero (x : Frac) : Bool := decide (x.num = 0)

/-- Python `int(x)` on a float: truncation toward zero. -/
def Frac.trunc (x : Frac) : Int := x.num.tdiv (x.den : Int)

/-- The rational value of a fraction, for stating numeric bounds. -/
def Frac.toRat (x : Frac) : ℚ := (x.num : ℚ) / (x.den : ℚ)

/-- Python `max(a, b)`: returns `a` when the two compare equal. -/
def Frac.pymax (a b : Frac) : Frac := if Frac.ble b a then a else b

/-! ## Python `float(str)` -/

/-- Result of a successful Python `float(...)` call: a finite value,
a signed infinity, or a NaN. -/
inductive PyFloat
  | fin (q : Frac)
  | inf (neg : Bool)
  | nan
deriving DecidableEq

/-- Negation, for a leading `-` sign. -/
def PyFloat.neg : PyFloat → PyFloat
  | .fin q => .fin ⟨-q.num, q.den, q.den_pos⟩
  | .inf b => .inf (!b)
  | .nan => .nan

/-- Parse an unsigned decimal mantissa `d+ | d+.d* | .d+ | d+.d+`,
returning its digit value and the number of fractional digits. -/
def parseDecMantissa (s : Str) : Option (Nat × Nat) :=
  match splitChar '.' s with
  | [a] => if a ≠ [] ∧ a.all Char.isDigit then some (natOfDigits a, 0) else none
  | [a, b] =>
      if (a ++ b) ≠ [] ∧ a.all Char.isDigit ∧ b.all Char.isDigit then
        some (natOfDigits (a ++ b), b.length)
      else none
  | _ => none

/-- Parse the exponent part after `e`: an optional sign and digits. -/
def parseExpPart (s : Str) : Option Int :=
  match s with
  | '+' :: ds => if ds ≠ [] ∧ ds.all Char.isDigit then some ((natOfDigits ds : Int)) else none
  | '-' :: ds => if ds ≠ [] ∧ ds.all Char.isDigit then some (-(natOfDigits ds : Int)) else none
  | ds => if ds ≠ [] ∧ ds.all Char.isDigit then some ((natOfDigits ds : Int)) else none

/-- Build the exact value `sgn * mant * 10^(e - fracLen)`. -/
def fracOfParts (negSign : Bool) (mant : Nat) (fracLen : Nat) (e : Int) : Frac :=
  let sgn : Int := if negSign then -1 else 1
  let net : Int := e - (fracLen : Int)
  if 0 ≤ net then ⟨sgn * (mant : Int) * (10 : Int) ^ net.toNat, 1, Nat.one_pos⟩
  else ⟨sgn * (mant : Int), (10 : Nat) ^ (-net).toNat, Nat.pos_pow_of_pos _ (by decide)⟩

/-- Parse an unsigned float body: `inf`, `infinity`, `nan` (any case), or a
decimal literal with an optional exponent. -/
def parseMagnitude (s : Str) : Option PyFloat :=
  let low := pyLower s
  if low = "inf".data ∨ low = "infinity".data then some (.inf false)
  else if low = "nan".data then some .nan
  else
    match splitChar 'e' low with
    | [m] => (parseDecMantissa m).map (fun p => .fin (fracOfParts false p.1 p.2 0))
    | [m, ex] =>
        (parseDecMantissa m).bind (fun p =>
          (parseExpPart ex).map (fun e => PyFloat.fin (fracOfParts false p.1 p.2 e)))
    | _ => none

/-- Python `float(s)`: strip whitespace, handle an optional sign, parse the
magnitude.  `none` models a raised `ValueError`. -/
def pyFloatOfStr (s : Str) : Option PyFloat :=
  match pyStrip s with
  | [] => parseMagnitude []
  | c :: rest =>
      if c = '+' then parseMagnitude rest
      else if c = '-' then (parseMagnitude rest).map PyFloat.neg
      else parseMagnitude (c :: rest)

/-! ## `helpers/utils.py`: `parse_size_and_quantity` -/

/-- An uncaught Python exception escaping the embedded code. -/
inductive PyErr
  | overflowError
deriving DecidableEq

instance {ε α} [DecidableEq ε] [DecidableEq α] : DecidableEq (Except ε α)
  | .ok a, .ok b =>
      if h : a = b then .isTrue (by rw [h]) else .isFalse (by intro hc; cases hc; exact h rfl)
  | .ok _, .error _ => .isFalse (by intro hc; cases hc)
  | .error _, .ok _ => .isFalse (by intro hc; cases hc)
  | .error e, .error f =>
      if h : e = f then .isTrue (by rw [h]) else .isFalse (by intro hc; cases hc; exact h rfl)

/-- Embedding of `parse_size_and_quantity` (utils.py lines 180-196).
The source wraps `int(float(parts[1].strip()))` in `try/except ValueError`:
a failed `float` call and `int(nan)` raise `ValueError` (caught, falling
back to `(full_token, 0)`), while `int` of an infinite value raises
`OverflowError`, which the source does not catch. -/
def parse_size_and_quantity (s0 : Str) : Except PyErr (Str × Int) :=
  let s := pyStrip s0
  if pyLower s = "custom".data then .ok ("Custom".data, 0)
  else if countChar '-' s = 1 then
    let parts := splitChar '-' s
    let size_part := pyStrip (parts.headD [])
    match pyFloatOfStr (pyStrip (parts.getD 1 [])) with
    | some (.fin q) => .ok (size_part, q.trunc)
    | some (.inf _) => .error .overflowError
    | some .nan => .ok (s, 0)
    | none => .ok (s, 0)
  else .ok (s, 0)

/-! ## Python dicts as association lists

`dinsert` models Python dict assignment: an existing key keeps its position
and gets the new value, a fresh key is appended, matching insertion-order
semantics of Python dicts. -/

/-- Dict lookup (`d.get(k)` / `d[k]`). -/
def dget {α} (d : List (Str × α)) (k : Str) : Option α :=
  match d.find? (fun p => decide (p.1 = k)) with
  | some p => some p.2
  | none => none

/-- Dict assignment `d[k] = v`. -/
def dinsert {α} : List (Str × α) → Str → α → List (Str × α)
  | [], k, v => [(k, v)]
  | p :: rest, k, v => if p.1 = k then (k, v) :: rest else p :: dinsert rest k v

/-- Python `k in d`. -/
def dContainsKey {α} (d : List (Str × α)) (k : Str) : Bool :=
  d.any (fun p => decide (p.1 = k))

/-- Python `d.values()` as a list. -/
def dvalues {α} (d : List (Str × α)) : List α := d.map (fun p => p.2)

/-- Python `d1.update(d2)`. -/
def dupdate {α} (d e : List (Str × α)) : List (Str × α) :=
  e.foldl (fun acc p => dinsert acc p.1 p.2) d

/-! ## Stable sorting (Python `list.sort(key=...)` / `sorted`)

Insertion sort placing each element before the first strictly greater one;
this is stable, and a stable sort's output is uniquely determined by the
key order, so it agrees with CPython's timsort on every input. -/

/-- Insert `x` before the first element not strictly below it. -/
def insertStable {α} (lt : α → α → Bool) (x : α) : List α → List α
  | [] => [x]
  | y :: ys => if lt y x then y :: insertStable lt x ys else x :: y :: ys

/-- Stable sort by the strict comparison `lt`. -/
def stableSort {α} (lt : α → α → Bool) : List α → List α
  | [] => []
  | x :: xs => insertStable lt x (stableSort lt xs)

/-- Python string `<` (lexicographic by code point). -/
def strLt : Str → Str → Bool
  | [], [] => false
  | [], _ :: _ => true
  | _ :: _, [] => false
  | a :: as, b :: bs => if a = b then strLt as bs else decide (a.toNat < b.toNat)

/-! ## `helpers/utils.py`: `sort_sizes_with_quantities` -/

/-- The fixed 12-entry standard size taxonomy (utils.py line 121). -/
def standard_order : List Str :=
  ["XXS".data, "XS".data, "S".data, "M".data, "L".data, "XL".data,
   "XXL".data, "XXXL".data, "2XL".data, "3XL".data, "4XL".data, "5XL".data]

/-- Index of the first taxonomy entry matching case-insensitively. -/
def stdIndex (s : Str) : Option Nat :=
  standard_order.findIdx? (fun t => decide (pyUpper s = pyUpper t))

/-- Python regex `^X\d+` applied to the uppercased token (prefix match). -/
def xNumPattern (s : Str) : Bool :=
  match pyUpper s with
  | 'X' :: c :: _ => c.isDigit
  | _ => false

/-- Value of the first maximal digit run (`re.findall(r'\d+', s)[0]`). -/
def firstDigitRun : Str → Option Nat
  | [] => none
  | c :: rest =>
      if c.isDigit then some (natOfDigits ((c :: rest).takeWhile Char.isDigit))
      else firstDigitRun rest

/-- Bucket a size token like the loop in utils.py lines 148-166: standard
taxonomy (with its index), numeric (`^\d+$` or `^X\d+`, with its sort key),
or custom. -/
inductive SizeClass
  | std (idx : Nat)
  | numeric (key : Nat)
  | custom
deriving DecidableEq

/-- Classification of one size token. -/
def sizeClassOf (s : Str) : SizeClass :=
  match stdIndex s with
  | some i => .std i
  | none =>
      if (!s.isEmpty) && s.all Char.isDigit then .numeric (natOfDigits s)
      else if xNumPattern s then
        match firstDigitRun s with
        | some n => .numeric n
        | none => .custom
      else .custom

/-- Token goes to the standard bucket. -/
def isStdTok (s : Str) : Bool := match sizeClassOf s with | .std _ => true | _ => false

/-- Token goes to the numeric bucket. -/
def isNumTok (s : Str) : Bool := match sizeClassOf s with | .numeric _ => true | _ => false

/-- Token goes to the custom bucket. -/
def isCustTok (s : Str) : Bool := match sizeClassOf s with | .custom => true | _ => false

/-- Sort key within the standard bucket (taxonomy index). -/
def stdKeyOf (s : Str) : Nat := match sizeClassOf s with | .std i => i | _ => 0

/-- Sort key within the numeric bucket (embedded integer). -/
def numKeyOf (s : Str) : Nat := match sizeClassOf s with | .numeric n => n | _ => 0

/-- Sort of the standard bucket (`standard_sizes.sort(key=lambda x: x[0])`). -/
def sortStdBucket (l : List Str) : List Str :=
  stableSort (fun a b => decide (stdKeyOf a < stdKeyOf b)) l

/-- Sort of the numeric bucket. -/
def sortNumBucket (l : List Str) : List Str :=
  stableSort (fun a b => decide (numKeyOf a < numKeyOf b)) l

/-- Sort of the custom bucket (`custom_sizes.sort()`, Python string `<`). -/
def sortCustBucket (l : List Str) : List Str := stableSort strLt l

/-- First-seen-order de-duplication, generalized over already-seen tokens. -/
def dedupFirstAux : List Str → List Str → List Str
  | _, [] => []
  | seen, x :: xs =>
      if x ∈ seen then dedupFirstAux seen xs else x :: dedupFirstAux (x :: seen) xs

/-- Remove duplicates preserving first-seen order (utils.py lines 136-141). -/
def dedupFirst (l : List Str) : List Str := dedupFirstAux [] l

/-- Comma-split, strip, drop empties (utils.py line 124). -/
def sizeTokens (s : Str) : List Str :=
  ((splitChar ',' s).map pyStrip).filter (fun t => t ≠ [])

/-- Run a fallible step over a list, stopping at the first raised
exception (the semantics of a Python `for` loop whose body may raise). -/
def exceptMapM {ε α β : Type} (f : α → Except ε β) : List α → Except ε (List β)
  | [] => .ok []
  | a :: as =>
      match f a with
      | .error e => .error e
      | .ok b =>
          match exceptMapM f as with
          | .error e => .error e
          | .ok bs => .ok (b :: bs)

/-- Embedding of `sort_sizes_with_quantities` (utils.py lines 119-178):
split the raw cell on commas, parse each token, build the size→quantity
map (later tokens overwrite), de-duplicate preserving first-seen order,
bucket into standard / numeric / custom, sort each bucket, concatenate.
An uncaught exception from `parse_size_and_quantity` propagates. -/
def sort_sizes_with_quantities (s : Str) :
    Except PyErr (List Str × List (Str × Int)) := do
  let parsed ← exceptMapM parse_size_and_quantity (sizeTokens s)
  let sqmap := parsed.foldl (fun m p => dinsert m p.1 p.2) []
  let uniq := dedupFirst (parsed.map (fun p => p.1))
  let sorted := sortStdBucket (uniq.filter isStdTok) ++
                sortNumBucket (uniq.filter isNumTok) ++
                sortCustBucket (uniq.filter isCustTok)
  pure (sorted, sqmap)

/-! ## Basic lemmas about the string primitives -/

theorem mem_of_mem_dropWhile {α} {p : α → Bool} {x : α} :
    ∀ {l : List α}, x ∈ l.dropWhile p → x ∈ l := by
  intro l
  induction l with
  | nil => simp [List.dropWhile]
  | cons a as ih =>
      intro h
      rw [List.dropWhile] at h
      by_cases hp : p a
      · simp [hp] at h
        exact List.mem_cons_of_mem _ (ih h)
      · simp [hp] at h
        exact List.mem_cons.mpr h

theorem mem_of_mem_pyStrip {x : Char} {s : Str} (h : x ∈ pyStrip s) : x ∈ s := by
  unfold pyStrip at h
  rw [List.mem_reverse] at h
  have h1 := mem_of_mem_dropWhile h
  rw [List.mem_reverse] at h1
  exact mem_of_mem_dropWhile h1

theorem not_mem_splitCharAux {c : Char} :
    ∀ {s acc : Str}, c ∉ acc → ∀ p ∈ splitCharAux c s acc, c ∉ p := by
  intro s
  induction s with
  | nil =>
      intro acc hacc p hp
      simp [splitCharAux] at hp
      subst hp
      simpa using hacc
  | cons x xs ih =>
      intro acc hacc p hp
      by_cases hx : x = c
      · rw [splitCharAux, if_pos hx] at hp
        rcases List.mem_cons.mp hp with h | h
        · subst h; simpa using hacc
        · exact ih (by simp) p h
      · rw [splitCharAux, if_neg hx] at hp
        refine ih ?_ p hp
        simp only [List.mem_cons]
        rintro (h | h)
        · exact hx h.symm
        · exact hacc h

theorem not_mem_splitChar {c : Char} {s : Str} : ∀ p ∈ splitChar c s, c ∉ p :=
  not_mem_splitCharAux (by simp)

theorem countChar_pos_mem {c : Char} {s : Str} (h : countChar c s = 1) : c ∈ s := by
  unfold countChar at h
  rcases hf : s.filter (fun x => decide (x = c)) with _ | ⟨y, ys⟩
  · rw [hf] at h; simp at h
  · have hy : y ∈ s.filter (fun x => decide (x = c)) := by rw [hf]; exact List.mem_cons_self _ _
    rcases List.mem_filter.mp hy with ⟨hmem, hyc⟩
    have : y = c := by simpa using hyc
    exact this ▸ hmem

/-! ## Numeric facts about `Frac` -/

theorem Frac.toRat_den_pos (q : Frac) : (0 : ℚ) < (q.den : ℚ) := by
  exact_mod_cast q.den_pos

theorem fracOfParts_false_nonneg (m f : Nat) (e : Int) :
    0 ≤ (fracOfParts false m f e).num := by
  simp only [fracOfParts, Bool.false_eq_true, if_false]
  split <;> positivity

theorem parseMagnitude_fin_nonneg {s : Str} {q : Frac}
    (h : parseMagnitude s = some (.fin q)) : 0 ≤ q.num := by
  simp only [parseMagnitude] at h
  split at h
  · simp at h
  · split at h
    · simp at h
    · split at h
      · rcases Option.map_eq_some'.mp h with ⟨p, _, hp2⟩
        have hq : fracOfParts false p.1 p.2 0 = q := by injection hp2
        exact hq ▸ fracOfParts_false_nonneg p.1 p.2 0
      · rcases Option.bind_eq_some.mp h with ⟨p, _, hmap⟩
        rcases Option.map_eq_some'.mp hmap with ⟨e, _, hp2⟩
        have hq : fracOfParts false p.1 p.2 e = q := by injection hp2
        exact hq ▸ fracOfParts_false_nonneg p.1 p.2 e
      · simp at h

theorem pyFloatOfStr_nonneg_of_no_dash {s : Str} {q : Frac}
    (hd : '-' ∉ s) (h : pyFloatOfStr s = some (.fin q)) : 0 ≤ q.num := by
  have hd' : '-' ∉ pyStrip s := fun hmem => hd (mem_of_mem_pyStrip hmem)
  rcases hps : pyStrip s with _ | ⟨c, rest⟩
  · simp only [pyFloatOfStr, hps] at h
    exact parseMagnitude_fin_nonneg h
  · simp only [pyFloatOfStr, hps] at h
    rw [hps] at hd'
    by_cases hc1 : c = '+'
    · rw [if_pos hc1] at h
      exact parseMagnitude_fin_nonneg h
    · by_cases hc2 : c = '-'
      · exact absurd (hc2 ▸ List.mem_cons_self c rest) hd'
      · rw [if_neg hc1, if_neg hc2] at h
        exact parseMagnitude_fin_nonneg h

theorem Frac.trunc_spec {q : Frac} (hq : 0 ≤ q.num) :
    0 ≤ q.trunc ∧ (q.trunc : ℚ) ≤ q.toRat ∧ q.toRat < (q.trunc : ℚ) + 1 := by
  have hden : (0 : Int) < (q.den : Int) := by exact_mod_cast q.den_pos
  have htdiv : q.trunc = q.num / (q.den : Int) := by
    unfold Frac.trunc
    exact Int.tdiv_eq_ediv hq (le_of_lt hden)
  have hb1 : q.trunc * (q.den : Int) ≤ q.num := by
    rw [htdiv]
    exact Int.ediv_mul_le q.num (by positivity)
  have hb2 : q.num < (q.trunc + 1) * (q.den : Int) := by
    rw [htdiv]
    exact Int.lt_ediv_add_one_mul_self q.num hden
  have hQden : (0 : ℚ) < (q.den : ℚ) := q.toRat_den_pos
  refine ⟨?_, ?_, ?_⟩
  · rw [htdiv]
    exact Int.ediv_nonneg hq (le_of_lt hden)
  · unfold Frac.toRat
    rw [le_div_iff₀ hQden]
    exact_mod_cast hb1
  · unfold Frac.toRat
    rw [div_lt_iff₀ hQden]
    calc (q.num : ℚ) < ((q.trunc + 1 : Int) : ℚ) * ((q.den : Int) : ℚ) := by exact_mod_cast hb2
    _ = ((q.trunc : ℚ) + 1) * (q.den : ℚ) := by push_cast; ring

theorem not_custom_of_one_hyphen {s : Str} (h : countChar '-' (pyStrip s) = 1) :
    pyLower (pyStrip s) ≠ "custom".data := by
  intro hcust
  have hdash : '-' ∈ pyStrip s := countChar_pos_mem h
  have hmem : Char.toLower '-' ∈ pyLower (pyStrip s) := List.mem_map_of_mem _ hdash
  rw [hcust] at hmem
  revert hmem
  decide

theorem not_mem_getD_of_forall {c : Char} {l : List Str} (h : ∀ p ∈ l, c ∉ p) (i : Nat) :
    c ∉ l.getD i [] := by
  rcases hg : l[i]? with _ | p
  · rw [List.getD_eq_getElem?_getD, hg]; simp
  · rw [List.getD_eq_getElem?_getD, hg]
    simp only [Option.getD_some]
    exact h p (List.getElem?_mem hg)

/-- Claim C6: a size token equal to `custom` case-insensitively parses to
`("Custom", 0)`; a token with exactly one hyphen whose right-hand part
parses to a finite number yields the trimmed left part together with the
quantity truncated (not rounded) to a non-negative integer; a token with
zero or at least two hyphens (and not the `custom` literal) is returned
whole with quantity `0`. -/
theorem claim_C6_parse_size_token (s : Str) :
    (pyLower (pyStrip s) = "custom".data →
        parse_size_and_quantity s = .ok ("Custom".data, 0)) ∧
    (∀ q : Frac, countChar '-' (pyStrip s) = 1 →
        pyFloatOfStr (pyStrip ((splitChar '-' (pyStrip s)).getD 1 [])) = some (.fin q) →
        parse_size_and_quantity s =
          .ok (pyStrip ((splitChar '-' (pyStrip s)).headD []), q.trunc) ∧
        0 ≤ q.trunc ∧ (q.trunc : ℚ) ≤ q.toRat ∧ q.toRat < (q.trunc : ℚ) + 1) ∧
    (pyLower (pyStrip s) ≠ "custom".data → countChar '-' (pyStrip s) ≠ 1 →
        parse_size_and_quantity s = .ok (pyStrip s, 0)) := by
  refine ⟨?_, ?_, ?_⟩
  · intro h
    simp only [parse_size_and_quantity]
    rw [if_pos h]
  · intro q hcount hq
    have hne := not_custom_of_one_hyphen hcount
    constructor
    · simp only [parse_size_and_quantity]
      rw [if_neg hne, if_pos hcount, hq]
    · have hnodash : '-' ∉ (splitChar '-' (pyStrip s)).getD 1 [] :=
        not_mem_getD_of_forall not_mem_splitChar 1
      have hnodash' : '-' ∉ pyStrip ((splitChar '-' (pyStrip s)).getD 1 []) :=
        fun hm => hnodash (mem_of_mem_pyStrip hm)
      exact Frac.trunc_spec (pyFloatOfStr_nonneg_of_no_dash hnodash' hq)
  · intro h1 h2
    simp only [parse_size_and_quantity]
    rw [if_neg h1, if_neg h2]

/-- Witness for C6 at concrete tokens: the case-folded literal, a
fractional-quantity token (`int(float("5.9")) = 5`, truncation), and an
opaque two-hyphen token. -/
theorem claim_C6_parse_size_token_witness :
    parse_size_and_quantity (" CuStOm ".data) = .ok ("Custom".data, 0) ∧
    parse_size_and_quantity ("M-5.9".data) = .ok ("M".data, 5) ∧
    parse_size_and_quantity ("A-B-C".data) = .ok ("A-B-C".data, 0) := by
  refine ⟨(claim_C6_parse_size_token (" CuStOm ".data)).1 (by decide), ?_,
    (claim_C6_parse_size_token ("A-B-C".data)).2.2 (by decide) (by decide)⟩
  have h := ((claim_C6_parse_size_token ("M-5.9".data)).2.1 ⟨59, 10, by decide⟩
    (by decide) (by decide)).1
  rw [h]
  decide

/-- Claim C9 (code bug): parsing the size token `M-inf` raises an uncaught
`OverflowError` — `float("inf")` succeeds and `int` of an infinite float
raises `OverflowError`, which the `except ValueError` clause in
`parse_size_and_quantity` does not catch — contradicting the spec's
guarantee that cell-level parse errors are recovered locally. -/
theorem claim_C9_parse_crash :
    parse_size_and_quantity ("M-inf".data) = .error .overflowError := by decide

/-! ## Generic lemmas about `insertStable` / `stableSort`

`leOf lt a b` means `a` may stand before `b` in a sorted list. -/

/-- Non-strict order induced by a strict comparison. -/
def leOf {α} (lt : α → α → Bool) (a b : α) : Prop := lt b a = false

theorem mem_insertStable {α} (lt : α → α → Bool) (x : α) :
    ∀ (l : List α) (a : α), a ∈ insertStable lt x l ↔ a = x ∨ a ∈ l := by
  intro l
  induction l with
  | nil => intro a; simp [insertStable]
  | cons y ys ih =>
      intro a
      by_cases hy : lt y x
      · simp only [insertStable, if_pos hy, List.mem_cons, ih a]
        tauto
      · simp only [insertStable, if_neg hy, List.mem_cons]

theorem insertStable_perm {α} (lt : α → α → Bool) (x : α) :
    ∀ l : List α, (insertStable lt x l).Perm (x :: l) := by
  intro l
  induction l with
  | nil => simp [insertStable]
  | cons y ys ih =>
      by_cases hy : lt y x
      · rw [insertStable, if_pos hy]
        exact (List.Perm.cons y ih).trans (List.Perm.swap x y ys)
      · simp [insertStable, if_neg hy]

theorem stableSort_perm {α} (lt : α → α → Bool) :
    ∀ l : List α, (stableSort lt l).Perm l := by
  intro l
  induction l with
  | nil => simp [stableSort]
  | cons x xs ih =>
      rw [stableSort]
      exact (insertStable_perm lt x (stableSort lt xs)).trans (List.Perm.cons x ih)

theorem mem_stableSort {α} (lt : α → α → Bool) (l : List α) (a : α) :
    a ∈ stableSort lt l ↔ a ∈ l :=
  (stableSort_perm lt l).mem_iff

theorem nodup_stableSort {α} (lt : α → α → Bool) (l : List α) (h : l.Nodup) :
    (stableSort lt l).Nodup :=
  (stableSort_perm lt l).nodup_iff.mpr h

theorem pairwise_insertStable {α} (lt : α → α → Bool)
    (Hasym : ∀ a b, lt a b = true → lt b a = false)
    (Hneg : ∀ a b c, lt b a = false → lt c b = false → lt c a = false)
    (x : α) : ∀ l : List α, l.Pairwise (leOf lt) →
      (insertStable lt x l).Pairwise (leOf lt) := by
  intro l
  induction l with
  | nil => intro _; simp [insertStable, leOf]
  | cons y ys ih =>
      intro hp
      rcases List.pairwise_cons.mp hp with ⟨hy, hys⟩
      by_cases hlt : lt y x
      · rw [insertStable, if_pos hlt]
        refine List.pairwise_cons.mpr ⟨?_, ih hys⟩
        intro b hb
        rcases (mem_insertStable lt x ys b).mp hb with hbx | hby
        · rw [hbx]; exact Hasym y x hlt
        · exact hy b hby
      · rw [insertStable, if_neg hlt]
        have hyx : lt y x = false := by simpa using hlt
        refine List.pairwise_cons.mpr ⟨?_, hp⟩
        intro b hb
        rcases List.mem_cons.mp hb with hby | hbys
        · rw [hby]; exact hyx
        · exact Hneg x y b hyx (hy b hbys)

theorem pairwise_stableSort {α} (lt : α → α → Bool)
    (Hasym : ∀ a b, lt a b = true → lt b a = false)
    (Hneg : ∀ a b c, lt b a = false → lt c b = false → lt c a = false) :
    ∀ l : List α, (stableSort lt l).Pairwise (leOf lt) := by
  intro l
  induction l with
  | nil => simp [stableSort]
  | cons x xs ih => exact pairwise_insertStable lt Hasym Hneg x _ ih

theorem insertStable_of_le_head {α} (lt : α → α → Bool) (x : α) :
    ∀ l : List α, (∀ y ∈ l.head?, lt y x = false) → insertStable lt x l = x :: l := by
  intro l hl
  cases l with
  | nil => rfl
  | cons y ys =>
      rw [insertStable, if_neg]
      have := hl y (by simp)
      simp [this]

theorem stableSort_eq_self {α} (lt : α → α → Bool) :
    ∀ l : List α, l.Pairwise (leOf lt) → stableSort lt l = l := by
  intro l
  induction l with
  | nil => intro _; rfl
  | cons x xs ih =>
      intro hp
      rcases List.pairwise_cons.mp hp with ⟨hx, hxs⟩
      rw [stableSort, ih hxs]
      refine insertStable_of_le_head lt x xs ?_
      intro y hy
      cases xs with
      | nil => simp at hy
      | cons z zs =>
          simp only [List.head?_cons, Option.mem_def, Option.some.injEq] at hy
          exact hy ▸ hx z (by simp)

/-! ## Order-theoretic facts for the concrete comparisons used by the sorts -/

theorem keyLt_asym {α} (key : α → Nat) (a b : α) :
    decide (key a < key b) = true → decide (key b < key a) = false := by
  simp only [decide_eq_true_eq, decide_eq_false_iff_not]
  omega

theorem keyLt_negtrans {α} (key : α → Nat) (a b c : α) :
    decide (key b < key a) = false → decide (key c < key b) = false →
    decide (key c < key a) = false := by
  simp only [decide_eq_false_iff_not]
  omega

theorem charToNat_inj {a b : Char} (h : a.toNat = b.toNat) : a = b :=
  Char.ext (UInt32.toNat.inj h)

theorem strLt_asym : ∀ a b : Str, strLt a b = true → strLt b a = false := by
  intro a
  induction a with
  | nil =>
      intro b h
      cases b with
      | nil => simp [strLt] at h
      | cons y ys => rfl
  | cons x xs ih =>
      intro b h
      cases b with
      | nil => simp [strLt] at h
      | cons y ys =>
          rw [strLt] at h ⊢
          by_cases hxy : x = y
          · rw [if_pos hxy] at h
            rw [if_pos hxy.symm]
            exact ih ys h
          · rw [if_neg hxy] at h
            rw [if_neg (fun hyx => hxy hyx.symm)]
            simp only [decide_eq_true_eq] at h
            simp only [decide_eq_false_iff_not]
            omega

theorem strLt_negtrans : ∀ a b c : Str, strLt b a = false → strLt c b = false →
    strLt c a = false := by
  intro a
  induction a with
  | nil =>
      intro b c _ _
      cases c with
      | nil => rfl
      | cons z zs => rfl
  | cons x xs ih =>
      intro b c h1 h2
      cases b with
      | nil => simp [strLt] at h1
      | cons y ys =>
          cases c with
          | nil => simp [strLt] at h2
          | cons z zs =>
              rw [strLt] at h1 h2 ⊢
              by_cases hyx : y = x
              · rw [if_pos hyx] at h1
                by_cases hzy : z = y
                · rw [if_pos hzy] at h2
                  rw [if_pos (hzy.trans hyx)]
                  exact ih ys zs h1 h2
                · rw [if_neg hzy] at h2
                  rw [if_neg (fun h => hzy (h.trans hyx.symm))]
                  simp only [decide_eq_false_iff_not] at h2 ⊢
                  rw [← hyx]
                  exact h2
              · rw [if_neg hyx] at h1
                simp only [decide_eq_false_iff_not] at h1
                by_cases hzy : z = y
                · rw [if_neg (fun h => hyx ((hzy.symm.trans h)))]
                  simp only [decide_eq_false_iff_not]
                  rw [hzy]
                  exact h1
                · rw [if_neg hzy] at h2
                  simp only [decide_eq_false_iff_not] at h2
                  by_cases hzx : z = x
                  · exfalso
                    rw [hzx] at h2
                    exact hyx (charToNat_inj (show x.toNat = y.toNat by omega)).symm
                  · rw [if_neg hzx]
                    simp only [decide_eq_false_iff_not]
                    omega

/-! ## Facts about `dedupFirstAux` -/

theorem mem_dedupFirstAux :
    ∀ (l seen : List Str) (t : Str), t ∈ dedupFirstAux seen l ↔ t ∈ l ∧ t ∉ seen := by
  intro l
  induction l with
  | nil => intro seen t; simp [dedupFirstAux]
  | cons x xs ih =>
      intro seen t
      by_cases hx : x ∈ seen
      · rw [dedupFirstAux, if_pos hx, ih]
        simp only [List.mem_cons]
        constructor
        · rintro ⟨h1, h2⟩; exact ⟨Or.inr h1, h2⟩
        · rintro ⟨h1 | h1, h2⟩
          · exact absurd (h1 ▸ hx) h2
          · exact ⟨h1, h2⟩
      · rw [dedupFirstAux, if_neg hx]
        simp only [List.mem_cons, ih]
        constructor
        · rintro (h | ⟨h1, h2⟩)
          · exact ⟨Or.inl h, by rw [h]; exact hx⟩
          · exact ⟨Or.inr h1, fun hc => h2 (Or.inr hc)⟩
        · rintro ⟨h1 | h1, h2⟩
          · exact Or.inl h1
          · by_cases hteqx : t = x
            · exact Or.inl hteqx
            · exact Or.inr ⟨h1, fun hc => hc.elim hteqx h2⟩

theorem nodup_dedupFirstAux : ∀ (l seen : List Str), (dedupFirstAux seen l).Nodup := by
  intro l
  induction l with
  | nil => intro seen; simp [dedupFirstAux]
  | cons x xs ih =>
      intro seen
      by_cases hx : x ∈ seen
      · rw [dedupFirstAux, if_pos hx]; exact ih seen
      · rw [dedupFirstAux, if_neg hx]
        refine List.nodup_cons.mpr ⟨?_, ih (x :: seen)⟩
        intro hc
        exact ((mem_dedupFirstAux xs (x :: seen) x).mp hc).2 (by simp)

theorem dedupFirstAux_eq_self :
    ∀ (l seen : List Str), l.Nodup → (∀ t ∈ l, t ∉ seen) → dedupFirstAux seen l = l := by
  intro l
  induction l with
  | nil => intro seen _ _; rfl
  | cons x xs ih =>
      intro seen hnd hs
      rw [dedupFirstAux, if_neg (hs x (by simp))]
      rcases List.nodup_cons.mp hnd with ⟨hx, hxs⟩
      rw [ih (x :: seen) hxs ?_]
      intro t ht
      simp only [List.mem_cons]
      rintro (h | h)
      · exact hx (h ▸ ht)
      · exact hs t (List.mem_cons_of_mem _ ht) h

theorem mem_dedupFirst (l : List Str) (t : Str) : t ∈ dedupFirst l ↔ t ∈ l := by
  rw [dedupFirst, mem_dedupFirstAux]
  simp

theorem nodup_dedupFirst (l : List Str) : (dedupFirst l).Nodup := nodup_dedupFirstAux l []

theorem dedupFirst_eq_self {l : List Str} (h : l.Nodup) : dedupFirst l = l :=
  dedupFirstAux_eq_self l [] h (by simp)

/-! ## Facts about `mapM` over `Except` -/

theorem exceptMapM_ok_mem {ε α β : Type} (f : α → Except ε β) :
    ∀ (l : List α) (r : List β), exceptMapM f l = .ok r →
      ∀ b, b ∈ r ↔ ∃ a ∈ l, f a = .ok b := by
  intro l
  induction l with
  | nil =>
      intro r hr b
      rw [exceptMapM] at hr
      injection hr with hr
      subst hr
      simp
  | cons a as ih =>
      intro r hr b
      rw [exceptMapM] at hr
      rcases hfa : f a with e | x
      · rw [hfa] at hr; exact absurd hr (by simp)
      · rw [hfa] at hr
        rcases hmas : exceptMapM f as with e | xs
        · rw [hmas] at hr; exact absurd hr (by simp)
        · rw [hmas] at hr
          injection hr with hr
          subst hr
          simp only [List.mem_cons]
          constructor
          · rintro (hbx | hbxs)
            · exact ⟨a, Or.inl rfl, hbx ▸ hfa⟩
            · rcases (ih xs hmas b).mp hbxs with ⟨a', ha', hfa'⟩
              exact ⟨a', Or.inr ha', hfa'⟩
          · rintro ⟨a', ha', hfa'⟩
            rcases ha' with h | h
            · rw [h] at hfa'
              rw [hfa'] at hfa
              injection hfa with hx
              exact Or.inl hx
            · exact Or.inr ((ih xs hmas b).mpr ⟨a', h, hfa'⟩)

theorem exceptMapM_ok_exists {ε α β γ : Type} (f : α → Except ε β) (proj : β → γ)
    (k : α → γ) :
    ∀ l : List α, (∀ a ∈ l, ∃ b, f a = .ok b ∧ proj b = k a) →
      ∃ r, exceptMapM f l = .ok r ∧ r.map proj = l.map k := by
  intro l
  induction l with
  | nil => intro _; exact ⟨[], rfl, rfl⟩
  | cons a as ih =>
      intro h
      rcases h a (by simp) with ⟨b, hb, hpb⟩
      rcases ih (fun a' ha' => h a' (List.mem_cons_of_mem _ ha')) with ⟨r, hr, hpr⟩
      refine ⟨b :: r, ?_, ?_⟩
      · rw [exceptMapM, hb, hr]
      · simp [hpb, hpr]

/-! ## Split / join round trips -/

theorem splitCharAux_no_sep {c : Char} :
    ∀ (p acc : Str), c ∉ p → splitCharAux c p acc = [acc.reverse ++ p] := by
  intro p
  induction p with
  | nil => intro acc _; simp [splitCharAux]
  | cons x xs ih =>
      intro acc hc
      have hx : ¬ x = c := fun h => hc (h ▸ List.mem_cons_self x xs)
      rw [splitCharAux, if_neg hx, ih (x :: acc) (fun h => hc (List.mem_cons_of_mem _ h))]
      simp

theorem splitCharAux_append_sep {c : Char} :
    ∀ (p acc rest : Str), c ∉ p →
      splitCharAux c (p ++ c :: rest) acc = (acc.reverse ++ p) :: splitCharAux c rest [] := by
  intro p
  induction p with
  | nil => intro acc rest _; simp [splitCharAux]
  | cons x xs ih =>
      intro acc rest hc
      have hx : ¬ x = c := fun h => hc (h ▸ List.mem_cons_self x xs)
      rw [List.cons_append, splitCharAux, if_neg hx,
        ih (x :: acc) rest (fun h => hc (List.mem_cons_of_mem _ h))]
      simp

theorem splitChar_joinComma :
    ∀ ps : List Str, ps ≠ [] → (∀ p ∈ ps, ',' ∉ p) → splitChar ',' (joinComma ps) = ps := by
  intro ps
  induction ps with
  | nil => intro h _; exact absurd rfl h
  | cons p rest ih =>
      intro _ hps
      cases rest with
      | nil =>
          rw [joinComma, splitChar, splitCharAux_no_sep p [] (hps p (by simp))]
          rfl
      | cons q qs =>
          have hj : joinComma (p :: q :: qs) = p ++ ',' :: joinComma (q :: qs) := rfl
          rw [hj, splitChar, splitCharAux_append_sep p [] _ (hps p (by simp))]
          rw [List.reverse_nil, List.nil_append]
          have := ih (List.cons_ne_nil q qs) (fun p' hp' => hps p' (List.mem_cons_of_mem _ hp'))
          rw [splitChar] at this
          rw [this]

theorem mem_splitCharAux_chars {c x : Char} :
    ∀ (s acc : Str) (p : Str), p ∈ splitCharAux c s acc → x ∈ p → x ∈ s ∨ x ∈ acc := by
  intro s
  induction s with
  | nil =>
      intro acc p hp hx
      simp only [splitCharAux, List.mem_singleton] at hp
      subst hp
      exact Or.inr (List.mem_reverse.mp hx)
  | cons a as ih =>
      intro acc p hp hx
      by_cases ha : a = c
      · rw [splitCharAux, if_pos ha] at hp
        rcases List.mem_cons.mp hp with h | h
        · subst h
          exact Or.inr (List.mem_reverse.mp hx)
        · rcases ih [] p h hx with h1 | h1
          · exact Or.inl (List.mem_cons_of_mem _ h1)
          · simp at h1
      · rw [splitCharAux, if_neg ha] at hp
        rcases ih (a :: acc) p hp hx with h1 | h1
        · exact Or.inl (List.mem_cons_of_mem _ h1)
        · rcases List.mem_cons.mp h1 with h2 | h2
          · exact Or.inl (h2 ▸ List.mem_cons_self a as)
          · exact Or.inr h2

theorem mem_splitChar_chars {c x : Char} {s : Str} {p : Str}
    (hp : p ∈ splitChar c s) (hx : x ∈ p) : x ∈ s := by
  rcases mem_splitCharAux_chars s [] p hp hx with h | h
  · exact h
  · simp at h

/-! ## Idempotence of `pyStrip` -/

theorem dropWhile_head_false {p : Char → Bool} :
    ∀ (l : Str) {x : Char} {xs : Str}, List.dropWhile p l = x :: xs → p x = false := by
  intro l
  induction l with
  | nil => intro x xs h; simp at h
  | cons a as ih =>
      intro x xs h
      rw [List.dropWhile_cons] at h
      by_cases hp : p a
      · rw [if_pos hp] at h
        exact ih h
      · rw [if_neg hp] at h
        injection h with h1 _
        rw [← h1]
        simpa using hp

theorem dropWhile_idem {p : Char → Bool} (l : Str) :
    List.dropWhile p (List.dropWhile p l) = List.dropWhile p l := by
  rcases h : List.dropWhile p l with _ | ⟨x, xs⟩
  · rfl
  · rw [List.dropWhile_cons, if_neg (by simp [dropWhile_head_false _ h])]

theorem dropWhile_pyStrip (s : Str) :
    (pyStrip s).dropWhile Char.isWhitespace = pyStrip s := by
  rw [pyStrip]
  set d := s.dropWhile Char.isWhitespace with hd
  have hsuffix : (d.reverse.dropWhile Char.isWhitespace) <:+ d.reverse :=
    List.dropWhile_suffix _
  rcases hr : (d.reverse.dropWhile Char.isWhitespace).reverse with _ | ⟨x, xs⟩
  · rfl
  · rw [List.dropWhile_cons]
    have hpre : (d.reverse.dropWhile Char.isWhitespace).reverse <+: d := by
      have := hsuffix.reverse
      rwa [List.reverse_reverse] at this
    rw [hr] at hpre
    rcases hpre with ⟨t, ht⟩
    rcases hdd : d with _ | ⟨y, ys⟩
    · rw [hdd] at ht; simp at ht
    · rw [hdd] at ht
      rw [List.cons_append] at ht
      injection ht with h1 _
      have hy : Char.isWhitespace y = false := dropWhile_head_false s (hd.symm.trans hdd)
      rw [h1, hy]
      simp

theorem pyStrip_idem (s : Str) : pyStrip (pyStrip s) = pyStrip s := by
  have h1 : (pyStrip s).dropWhile Char.isWhitespace = pyStrip s := dropWhile_pyStrip s
  show ((((pyStrip s).dropWhile Char.isWhitespace).reverse.dropWhile
    Char.isWhitespace)).reverse = pyStrip s
  rw [h1]
  rw [show (pyStrip s).reverse = (s.dropWhile Char.isWhitespace).reverse.dropWhile
    Char.isWhitespace from by rw [pyStrip, List.reverse_reverse]]
  rw [dropWhile_idem]
  rw [pyStrip]

/-! ## Structure of `sort_sizes_with_quantities` results -/

theorem sort_sizes_ok_elim {s : Str} {out : List Str} {m : List (Str × Int)}
    (h : sort_sizes_with_quantities s = .ok (out, m)) :
    ∃ parsed, exceptMapM parse_size_and_quantity (sizeTokens s) = .ok parsed ∧
      out = sortStdBucket ((dedupFirst (parsed.map (fun p => p.1))).filter isStdTok) ++
            sortNumBucket ((dedupFirst (parsed.map (fun p => p.1))).filter isNumTok) ++
            sortCustBucket ((dedupFirst (parsed.map (fun p => p.1))).filter isCustTok) ∧
      m = parsed.foldl (fun m p => dinsert m p.1 p.2) [] := by
  rw [sort_sizes_with_quantities] at h
  rcases hp : exceptMapM parse_size_and_quantity (sizeTokens s) with e | parsed
  · rw [hp] at h
    exact absurd h (by simp [Bind.bind, Except.bind])
  · rw [hp] at h
    refine ⟨parsed, rfl, ?_⟩
    have h' : (sortStdBucket ((dedupFirst (parsed.map (fun p => p.1))).filter isStdTok) ++
            sortNumBucket ((dedupFirst (parsed.map (fun p => p.1))).filter isNumTok) ++
            sortCustBucket ((dedupFirst (parsed.map (fun p => p.1))).filter isCustTok),
            parsed.foldl (fun m p => dinsert m p.1 p.2) []) = (out, m) := by
      simpa [Bind.bind, Except.bind, pure, Except.pure] using h
    rw [Prod.mk.injEq] at h'
    exact ⟨h'.1.symm, h'.2.symm⟩

theorem sizeTok_exhaustive (t : Str) :
    isStdTok t = true ∨ isNumTok t = true ∨ isCustTok t = true := by
  cases h : sizeClassOf t <;> simp [isStdTok, isNumTok, isCustTok, h]

theorem sizeTok_std_not_num {t : Str} (h : isStdTok t = true) : isNumTok t = false := by
  cases hc : sizeClassOf t <;> simp_all [isStdTok, isNumTok, hc]

theorem sizeTok_std_not_cust {t : Str} (h : isStdTok t = true) : isCustTok t = false := by
  cases hc : sizeClassOf t <;> simp_all [isStdTok, isCustTok, hc]

theorem sizeTok_num_not_cust {t : Str} (h : isNumTok t = true) : isCustTok t = false := by
  cases hc : sizeClassOf t <;> simp_all [isNumTok, isCustTok, hc]

theorem sizeTok_num_not_std {t : Str} (h : isNumTok t = true) : isStdTok t = false := by
  cases hc : sizeClassOf t <;> simp_all [isNumTok, isStdTok, hc]

theorem sizeTok_cust_not_std {t : Str} (h : isCustTok t = true) : isStdTok t = false := by
  cases hc : sizeClassOf t <;> simp_all [isCustTok, isStdTok, hc]

theorem sizeTok_cust_not_num {t : Str} (h : isCustTok t = true) : isNumTok t = false := by
  cases hc : sizeClassOf t <;> simp_all [isCustTok, isNumTok, hc]

theorem countChar_eq_zero_of_not_mem {c : Char} {s : Str} (h : c ∉ s) : countChar c s = 0 := by
  rw [countChar, List.length_eq_zero, List.filter_eq_nil_iff]
  intro a ha
  simp only [decide_eq_true_eq]
  intro hac
  exact h (hac ▸ ha)

theorem mem_headD_nil {c : Char} {l : List Str} (h : c ∈ l.headD []) : ∃ p ∈ l, c ∈ p := by
  cases l with
  | nil => simp at h
  | cons a as => exact ⟨a, by simp, h⟩

theorem mem_getD_nil {c : Char} {l : List Str} {i : Nat} (h : c ∈ l.getD i []) :
    ∃ p ∈ l, c ∈ p := by
  rcases hg : l[i]? with _ | p
  · rw [List.getD_eq_getElem?_getD, hg] at h; simp at h
  · rw [List.getD_eq_getElem?_getD, hg] at h
    exact ⟨p, List.getElem?_mem hg, h⟩

/-! ## What `parse_size_and_quantity` can return -/

theorem parse_ok_stripped {tok t : Str} {q : Int}
    (h : parse_size_and_quantity tok = .ok (t, q)) : pyStrip t = t := by
  simp only [parse_size_and_quantity] at h
  split at h
  · injection h with h1
    rw [Prod.mk.injEq] at h1
    rw [← h1.1]
    decide
  · split at h
    · split at h
      · injection h with h1
        rw [Prod.mk.injEq] at h1
        rw [← h1.1]
        exact pyStrip_idem _
      · exact absurd h (by simp)
      · injection h with h1
        rw [Prod.mk.injEq] at h1
        rw [← h1.1]
        exact pyStrip_idem _
      · injection h with h1
        rw [Prod.mk.injEq] at h1
        rw [← h1.1]
        exact pyStrip_idem _
    · injection h with h1
      rw [Prod.mk.injEq] at h1
      rw [← h1.1]
      exact pyStrip_idem _

theorem parse_ok_no_comma {tok t : Str} {q : Int} (hc : ',' ∉ tok)
    (h : parse_size_and_quantity tok = .ok (t, q)) : ',' ∉ t := by
  have hcs : ',' ∉ pyStrip tok := fun hm => hc (mem_of_mem_pyStrip hm)
  simp only [parse_size_and_quantity] at h
  split at h
  · injection h with h1
    rw [Prod.mk.injEq] at h1
    rw [← h1.1]
    decide
  · split at h
    · split at h
      · injection h with h1
        rw [Prod.mk.injEq] at h1
        rw [← h1.1]
        intro hmem
        have hmem1 := mem_of_mem_pyStrip hmem
        rcases mem_headD_nil hmem1 with ⟨p, hp, hcp⟩
        exact hcs (mem_splitChar_chars hp hcp)
      · exact absurd h (by simp)
      · injection h with h1
        rw [Prod.mk.injEq] at h1
        rw [← h1.1]
        exact hcs
      · injection h with h1
        rw [Prod.mk.injEq] at h1
        rw [← h1.1]
        exact hcs
    · injection h with h1
      rw [Prod.mk.injEq] at h1
      rw [← h1.1]
      exact hcs

theorem parse_reparse {tok t : Str} {q : Int}
    (h : parse_size_and_quantity tok = .ok (t, q))
    (hcust : pyLower t = "custom".data → t = "Custom".data) :
    ∃ q', parse_size_and_quantity t = .ok (t, q') := by
  have hstrip : pyStrip t = t := parse_ok_stripped h
  simp only [parse_size_and_quantity] at h
  split at h
  · injection h with h1
    rw [Prod.mk.injEq] at h1
    refine ⟨0, ?_⟩
    rw [← h1.1]
    decide
  · rename_i hcount1
    split at h
    · rename_i hcount2
      split at h
      · rename_i q' hfin
        injection h with h1
        rw [Prod.mk.injEq] at h1
        have ht : t = pyStrip ((splitChar '-' (pyStrip tok)).headD []) := h1.1.symm
        have hnodash : '-' ∉ t := by
          rw [ht]
          intro hm
          rcases mem_headD_nil (mem_of_mem_pyStrip hm) with ⟨p, hp, hcp⟩
          exact not_mem_splitChar p hp hcp
        by_cases hlow : pyLower t = "custom".data
        · refine ⟨0, ?_⟩
          rw [hcust hlow]
          decide
        · refine ⟨0, ?_⟩
          simp only [parse_size_and_quantity]
          rw [hstrip, if_neg hlow,
            if_neg (by rw [countChar_eq_zero_of_not_mem hnodash]; decide)]
      · exact absurd h (by simp)
      · rename_i hnan
        injection h with h1
        rw [Prod.mk.injEq] at h1
        have ht : t = pyStrip tok := h1.1.symm
        refine ⟨0, ?_⟩
        simp only [parse_size_and_quantity]
        rw [hstrip]
        have hcnt : countChar '-' t = 1 := by rw [ht]; exact hcount2
        rw [if_neg (by
          have := not_custom_of_one_hyphen (s := t) (by rw [hstrip]; exact hcnt)
          rwa [hstrip] at this), if_pos hcnt]
        rw [ht, hnan]
      · rename_i hnone
        injection h with h1
        rw [Prod.mk.injEq] at h1
        have ht : t = pyStrip tok := h1.1.symm
        refine ⟨0, ?_⟩
        simp only [parse_size_and_quantity]
        rw [hstrip]
        have hcnt : countChar '-' t = 1 := by rw [ht]; exact hcount2
        rw [if_neg (by
          have := not_custom_of_one_hyphen (s := t) (by rw [hstrip]; exact hcnt)
          rwa [hstrip] at this), if_pos hcnt]
        rw [ht, hnone]
    · rename_i hcount2
      injection h with h1
      rw [Prod.mk.injEq] at h1
      have ht : t = pyStrip tok := h1.1.symm
      refine ⟨0, ?_⟩
      simp only [parse_size_and_quantity]
      rw [hstrip]
      rw [if_neg (by rw [ht]; exact hcount1), if_neg (by rw [ht]; exact hcount2)]

theorem sizeTokens_no_comma {s tok : Str} (h : tok ∈ sizeTokens s) : ',' ∉ tok := by
  rw [sizeTokens, List.mem_filter] at h
  rcases List.mem_map.mp h.1 with ⟨piece, hpiece, hstrip⟩
  intro hm
  rw [← hstrip] at hm
  exact not_mem_splitChar piece hpiece (mem_of_mem_pyStrip hm)

theorem mem_sortStdBucket {l : List Str} {t : Str} :
    t ∈ sortStdBucket l ↔ t ∈ l := by
  rw [sortStdBucket, mem_stableSort]

theorem mem_sortNumBucket {l : List Str} {t : Str} :
    t ∈ sortNumBucket l ↔ t ∈ l := by
  rw [sortNumBucket, mem_stableSort]

theorem mem_sortCustBucket {l : List Str} {t : Str} :
    t ∈ sortCustBucket l ↔ t ∈ l := by
  rw [sortCustBucket, mem_stableSort]

theorem nodup_sort_sizes {s : Str} {out : List Str} {m : List (Str × Int)}
    (h : sort_sizes_with_quantities s = .ok (out, m)) : out.Nodup := by
  rcases sort_sizes_ok_elim h with ⟨parsed, _, hout, _⟩
  subst hout
  have hnd : (dedupFirst (parsed.map (fun p => p.1))).Nodup := nodup_dedupFirst _
  have hndA : (sortStdBucket ((dedupFirst (parsed.map (fun p => p.1))).filter isStdTok)).Nodup :=
    nodup_stableSort _ _ (hnd.filter _)
  have hndB : (sortNumBucket ((dedupFirst (parsed.map (fun p => p.1))).filter isNumTok)).Nodup :=
    nodup_stableSort _ _ (hnd.filter _)
  have hndC : (sortCustBucket ((dedupFirst (parsed.map (fun p => p.1))).filter isCustTok)).Nodup :=
    nodup_stableSort _ _ (hnd.filter _)
  have hmemA : ∀ t ∈ sortStdBucket ((dedupFirst (parsed.map (fun p => p.1))).filter isStdTok),
      isStdTok t = true := by
    intro t ht
    exact (List.mem_filter.mp (mem_sortStdBucket.mp ht)).2
  have hmemB : ∀ t ∈ sortNumBucket ((dedupFirst (parsed.map (fun p => p.1))).filter isNumTok),
      isNumTok t = true := by
    intro t ht
    exact (List.mem_filter.mp (mem_sortNumBucket.mp ht)).2
  have hmemC : ∀ t ∈ sortCustBucket ((dedupFirst (parsed.map (fun p => p.1))).filter isCustTok),
      isCustTok t = true := by
    intro t ht
    exact (List.mem_filter.mp (mem_sortCustBucket.mp ht)).2
  refine List.Nodup.append (List.Nodup.append hndA hndB ?_) hndC ?_
  · intro a haA haB
    have h1 := sizeTok_std_not_num (hmemA a haA)
    rw [hmemB a haB] at h1
    exact absurd h1 (by simp)
  · intro a haAB haC
    rcases List.mem_append.mp haAB with hA | hB
    · have h1 := sizeTok_std_not_cust (hmemA a hA)
      rw [hmemC a haC] at h1
      exact absurd h1 (by simp)
    · have h1 := sizeTok_num_not_cust (hmemB a hB)
      rw [hmemC a haC] at h1
      exact absurd h1 (by simp)

theorem mem_sort_sizes_iff {s : Str} {out : List Str} {m : List (Str × Int)}
    (h : sort_sizes_with_quantities s = .ok (out, m)) (t : Str) :
    t ∈ out ↔ ∃ tok ∈ sizeTokens s, ∃ q, parse_size_and_quantity tok = .ok (t, q) := by
  rcases sort_sizes_ok_elim h with ⟨parsed, hmapM, hout, _⟩
  subst hout
  have hmm := exceptMapM_ok_mem _ _ _ hmapM
  constructor
  · intro ht
    have ht' : t ∈ dedupFirst (parsed.map fun p => p.1) := by
      rcases List.mem_append.mp ht with h1 | hC
      · rcases List.mem_append.mp h1 with hA | hB
        · exact (List.mem_filter.mp (mem_sortStdBucket.mp hA)).1
        · exact (List.mem_filter.mp (mem_sortNumBucket.mp hB)).1
      · exact (List.mem_filter.mp (mem_sortCustBucket.mp hC)).1
    rw [mem_dedupFirst] at ht'
    rcases List.mem_map.mp ht' with ⟨p, hp, hp1⟩
    rcases (hmm p).mp hp with ⟨a, ha, hpa⟩
    refine ⟨a, ha, p.2, ?_⟩
    have hpt : (t, p.2) = p := by rw [← hp1]
    rw [hpt]
    exact hpa
  · rintro ⟨a, ha, q, hq⟩
    have hp : (t, q) ∈ parsed := (hmm (t, q)).mpr ⟨a, ha, hq⟩
    have ht : t ∈ dedupFirst (parsed.map fun p => p.1) := by
      rw [mem_dedupFirst]
      exact List.mem_map.mpr ⟨(t, q), hp, rfl⟩
    rcases sizeTok_exhaustive t with hc | hc | hc
    · exact List.mem_append.mpr (Or.inl (List.mem_append.mpr (Or.inl
        (mem_sortStdBucket.mpr (List.mem_filter.mpr ⟨ht, hc⟩)))))
    · exact List.mem_append.mpr (Or.inl (List.mem_append.mpr (Or.inr
        (mem_sortNumBucket.mpr (List.mem_filter.mpr ⟨ht, hc⟩)))))
    · exact List.mem_append.mpr (Or.inr (mem_sortCustBucket.mpr (List.mem_filter.mpr ⟨ht, hc⟩)))

theorem sort_sizes_resort {s : Str} {out : List Str} {m : List (Str × Int)}
    (h : sort_sizes_with_quantities s = .ok (out, m))
    (hgood : ∀ t ∈ out, t ≠ [] ∧ (pyLower t = "custom".data → t = "Custom".data)) :
    ∃ m2, sort_sizes_with_quantities (joinComma out) = .ok (out, m2) := by
  have hmem := mem_sort_sizes_iff h
  have hnd := nodup_sort_sizes h
  have htok : ∀ t ∈ out,
      ',' ∉ t ∧ pyStrip t = t ∧ ∃ q', parse_size_and_quantity t = .ok (t, q') := by
    intro t ht
    rcases (hmem t).mp ht with ⟨tok, htokmem, q, hq⟩
    exact ⟨parse_ok_no_comma (sizeTokens_no_comma htokmem) hq, parse_ok_stripped hq,
      parse_reparse hq (hgood t ht).2⟩
  by_cases hne : out = []
  · subst hne
    exact ⟨[], by decide⟩
  · have hjoin : sizeTokens (joinComma out) = out := by
      rw [sizeTokens, splitChar_joinComma out hne (fun p hp => (htok p hp).1)]
      have hmap : out.map pyStrip = out := by
        have h1 : out.map pyStrip = out.map id :=
          List.map_congr_left (fun t ht => (htok t ht).2.1)
        rw [h1, List.map_id]
      rw [hmap]
      exact List.filter_eq_self.mpr (fun a ha => by simp [(hgood a ha).1])
    have hforall : ∀ t ∈ out, ∃ b, parse_size_and_quantity t = .ok b ∧ b.1 = t := by
      intro t ht
      rcases (htok t ht).2.2 with ⟨q', hq'⟩
      exact ⟨(t, q'), hq', rfl⟩
    rcases exceptMapM_ok_exists parse_size_and_quantity (fun p => p.1) id out hforall
      with ⟨parsed2, hmapM2, hproj⟩
    rw [List.map_id] at hproj
    have huniq2 : dedupFirst (parsed2.map fun p => p.1) = out := by
      rw [hproj]
      exact dedupFirst_eq_self hnd
    rcases sort_sizes_ok_elim h with ⟨parsed, _, hout, _⟩
    set A := sortStdBucket ((dedupFirst (parsed.map (fun p => p.1))).filter isStdTok)
      with hAdef
    set B := sortNumBucket ((dedupFirst (parsed.map (fun p => p.1))).filter isNumTok)
      with hBdef
    set C := sortCustBucket ((dedupFirst (parsed.map (fun p => p.1))).filter isCustTok)
      with hCdef
    have hA : ∀ x ∈ A, isStdTok x = true := by
      intro x hx
      rw [hAdef] at hx
      exact (List.mem_filter.mp (mem_sortStdBucket.mp hx)).2
    have hB : ∀ x ∈ B, isNumTok x = true := by
      intro x hx
      rw [hBdef] at hx
      exact (List.mem_filter.mp (mem_sortNumBucket.mp hx)).2
    have hC : ∀ x ∈ C, isCustTok x = true := by
      intro x hx
      rw [hCdef] at hx
      exact (List.mem_filter.mp (mem_sortCustBucket.mp hx)).2
    have hfA : out.filter isStdTok = A := by
      rw [hout, List.filter_append, List.filter_append]
      rw [List.filter_eq_self.mpr (fun a ha => hA a ha)]
      rw [List.filter_eq_nil_iff.mpr (fun a ha => by simp [sizeTok_num_not_std (hB a ha)])]
      rw [List.filter_eq_nil_iff.mpr (fun a ha => by simp [sizeTok_cust_not_std (hC a ha)])]
      simp
    have hfB : out.filter isNumTok = B := by
      rw [hout, List.filter_append, List.filter_append]
      rw [List.filter_eq_self.mpr (fun a ha => hB a ha)]
      rw [List.filter_eq_nil_iff.mpr (fun a ha => by simp [sizeTok_std_not_num (hA a ha)])]
      rw [List.filter_eq_nil_iff.mpr (fun a ha => by simp [sizeTok_cust_not_num (hC a ha)])]
      simp
    have hfC : out.filter isCustTok = C := by
      rw [hout, List.filter_append, List.filter_append]
      rw [List.filter_eq_self.mpr (fun a ha => hC a ha)]
      rw [List.filter_eq_nil_iff.mpr (fun a ha => by simp [sizeTok_std_not_cust (hA a ha)])]
      rw [List.filter_eq_nil_iff.mpr (fun a ha => by simp [sizeTok_num_not_cust (hB a ha)])]
      simp
    have hsortA : sortStdBucket A = A := by
      have hpw : A.Pairwise (leOf (fun a b => decide (stdKeyOf a < stdKeyOf b))) := by
        rw [hAdef, sortStdBucket]
        exact pairwise_stableSort _ (keyLt_asym stdKeyOf) (keyLt_negtrans stdKeyOf) _
      rw [sortStdBucket]
      exact stableSort_eq_self _ A hpw
    have hsortB : sortNumBucket B = B := by
      have hpw : B.Pairwise (leOf (fun a b => decide (numKeyOf a < numKeyOf b))) := by
        rw [hBdef, sortNumBucket]
        exact pairwise_stableSort _ (keyLt_asym numKeyOf) (keyLt_negtrans numKeyOf) _
      rw [sortNumBucket]
      exact stableSort_eq_self _ B hpw
    have hsortC : sortCustBucket C = C := by
      have hpw : C.Pairwise (leOf strLt) := by
        rw [hCdef, sortCustBucket]
        exact pairwise_stableSort _ strLt_asym strLt_negtrans _
      rw [sortCustBucket]
      exact stableSort_eq_self _ C hpw
    refine ⟨parsed2.foldl (fun m p => dinsert m p.1 p.2) [], ?_⟩
    rw [sort_sizes_with_quantities, hjoin, hmapM2]
    have hpair : (sortStdBucket ((dedupFirst (parsed2.map (fun p => p.1))).filter isStdTok) ++
        sortNumBucket ((dedupFirst (parsed2.map (fun p => p.1))).filter isNumTok) ++
        sortCustBucket ((dedupFirst (parsed2.map (fun p => p.1))).filter isCustTok)) = out := by
      rw [huniq2, hfA, hfB, hfC, hsortA, hsortB, hsortC]
      exact hout.symm
    simp only [Bind.bind, Except.bind, pure, Except.pure, hpair]

/-- Claim C7 (amended): whenever `sort_sizes_with_quantities` returns, its
size list holds exactly the distinct parsed input tokens, each once
(no drops, no duplicates); and it is idempotent on its own output provided
no output token is the empty string and any case-variant of `custom` among
them is the literal `Custom` — the two situations the counterexample shows
break idempotence. -/
theorem claim_C7_sort_sizes (s : Str) (out : List Str) (m : List (Str × Int))
    (h : sort_sizes_with_quantities s = .ok (out, m)) :
    out.Nodup ∧
    (∀ t, t ∈ out ↔ ∃ tok ∈ sizeTokens s, ∃ q, parse_size_and_quantity tok = .ok (t, q)) ∧
    ((∀ t ∈ out, t ≠ [] ∧ (pyLower t = "custom".data → t = "Custom".data)) →
      ∃ m2, sort_sizes_with_quantities (joinComma out) = .ok (out, m2)) :=
  ⟨nodup_sort_sizes h, mem_sort_sizes_iff h, sort_sizes_resort h⟩

/-- Witness for C7 on the size cell `M-5, S-3, XL`: the sorted output
re-sorts to itself. -/
theorem claim_C7_sort_sizes_witness :
    ∃ m2, sort_sizes_with_quantities (joinComma ["S".data, "M".data, "XL".data]) =
      .ok (["S".data, "M".data, "XL".data], m2) :=
  (claim_C7_sort_sizes ("M-5, S-3, XL".data) ["S".data, "M".data, "XL".data]
    [("M".data, 5), ("S".data, 3), ("XL".data, 0)] (by decide)).2.2 (by decide)

/-- Counterexample to C7 as stated: the input `custom-5` sorts to the
already-sorted, de-duplicated list `["custom"]`, but applying the sort
again normalizes the token to the literal `Custom`, so the function is not
idempotent on that sorted, duplicate-free input. -/
theorem claim_C7_counterexample :
    sort_sizes_with_quantities ("custom-5".data) =
      .ok (["custom".data], [("custom".data, 5)]) ∧
    sort_sizes_with_quantities (joinComma ["custom".data]) =
      .ok (["Custom".data], [("Custom".data, 0)]) ∧
    ["Custom".data] ≠ ["custom".data] :=
  ⟨by decide, by decide, by decide⟩

/-! ## `helpers/column_mapper.py`: the three-pass column mapper

The six content-sniffing scorers (`_is_price_column` … `_is_code_column`)
compute sample statistics from the table's cell values; the claims about
the mapper depend only on the priority cascade and its thresholds, so the
scorers are abstracted as a per-column `ContentScores` input (`none`
models a column with no non-empty sample values, which the source skips).
The fuzzy similarity's `SequenceMatcher.ratio` call is a parameter
`ratio`; `difflibRatio` below is a faithful executable implementation. -/

/-- The static canonical-field → accepted-spellings table from
`ColumnMapper._get_column_variants` (column_mapper.py lines 228-306). -/
def standardVariants : List (Str × List Str) :=
[
  (("Handle").data, [("handle").data, ("product_handle").data, ("product handle").data]),
  (("Title").data, [("title").data, ("product_title").data, ("product title").data, ("name").data, ("product_name").data, ("product name").data]),
  (("Body (HTML)").data, [("body (html)").data, ("body html").data, ("description").data, ("product_description").data, ("product description").data, ("desc").data, ("body").data]),
  (("Vendor").data, [("vendor").data, ("brand").data, ("manufacturer").data, ("supplier").data]),
  (("Product Category").data, [("product category").data, ("product_category").data, ("category").data, ("product_type").data]),
  (("Type").data, [("type").data, ("product_type").data, ("product type").data]),
  (("Tags").data, [("tags").data, ("product_tags").data, ("keywords").data]),
  (("Published").data, [("published").data, ("status").data, ("active").data, ("publish_status").data, ("publish status").data]),
  (("Option1 Name").data, [("option1 name").data, ("option1_name").data, ("option 1 name").data]),
  (("Option1 Value").data, [("option1 value").data, ("option1_value").data, ("option 1 value").data, ("size").data, ("sizes").data]),
  (("Option2 Name").data, [("option2 name").data, ("option2_name").data, ("option 2 name").data]),
  (("Option2 Value").data, [("option2 value").data, ("option2_value").data, ("option 2 value").data, ("colour").data, ("color").data, ("colors").data, ("colours").data]),
  (("Option3 Name").data, [("option3 name").data, ("option3_name").data, ("option 3 name").data]),
  (("Option3 Value").data, [("option3 value").data, ("option3_value").data, ("option 3 value").data]),
  (("Variant SKU").data, [("variant sku").data, ("variant_sku").data, ("sku").data, ("product_sku").data, ("product sku").data, ("product code").data, ("product_code").data, ("item_code").data, ("item code").data, ("Product code").data, ("Porduct Code").data]),
  (("Variant Grams").data, [("variant grams").data, ("variant_grams").data, ("weight_grams").data, ("weight grams").data]),
  (("Variant Inventory Tracker").data, [("variant inventory tracker").data, ("variant_inventory_tracker").data, ("inventory tracker").data, ("inventory_tracker").data]),
  (("Variant Inventory Qty").data, [("variant inventory qty").data, ("variant_inventory_qty").data, ("inventory qty").data, ("inventory_qty").data, ("quantity").data, ("stock").data, ("stock_quantity").data]),
  (("Variant Inventory Policy").data, [("variant inventory policy").data, ("variant_inventory_policy").data, ("inventory policy").data, ("inventory_policy").data]),
  (("Variant Fulfillment Service").data, [("variant fulfillment service").data, ("variant_fulfillment_service").data, ("fulfillment service").data, ("fulfillment_service").data]),
  (("Variant Price").data, [("variant price").data, ("variant_price").data, ("price").data, ("unit_price").data, ("unit price").data, ("cost").data, ("selling_price").data]),
  (("Variant Compare At Price").data, [("variant compare at price").data, ("variant_compare_at_price").data, ("compare price").data, ("compare_price").data, ("compare at price").data, ("compare_at_price").data, ("original_price").data, ("original price").data, ("mrp").data]),
  (("Variant Requires Shipping").data, [("variant requires shipping").data, ("variant_requires_shipping").data, ("requires shipping").data, ("requires_shipping").data, ("shipping_required").data]),
  (("Variant Taxable").data, [("variant taxable").data, ("variant_taxable").data, ("taxable").data, ("tax_applicable").data]),
  (("Variant Barcode").data, [("variant barcode").data, ("variant_barcode").data, ("barcode").data, ("upc").data, ("ean").data]),
  (("Variant Image").data, [("variant image").data, ("variant_image").data, ("image").data, ("product_image").data]),
  (("Variant Weight Unit").data, [("variant weight unit").data, ("variant_weight_unit").data, ("weight unit").data, ("weight_unit").data]),
  (("Variant Weight").data, [("variant weight").data, ("variant_weight").data, ("weight").data]),
  (("Image Src").data, [("image src").data, ("image_src").data, ("image url").data, ("image_url").data, ("image").data, ("product_image").data]),
  (("Image Position").data, [("image position").data, ("image_position").data]),
  (("Image Alt Text").data, [("image alt text").data, ("image_alt_text").data, ("alt text").data, ("alt_text").data]),
  (("Gift Card").data, [("gift card").data, ("gift_card").data]),
  (("SEO Title").data, [("seo title").data, ("seo_title").data, ("meta title").data, ("meta_title").data]),
  (("SEO Description").data, [("seo description").data, ("seo_description").data, ("meta description").data, ("meta_description").data]),
  (("Google Shopping / Google Product Category").data, [("google shopping / google product category").data, ("google product category").data, ("google_product_category").data]),
  (("Google Shopping / Gender").data, [("google shopping / gender").data, ("gender").data, ("target_gender").data]),
  (("Google Shopping / Age Group").data, [("google shopping / age group").data, ("age group").data, ("age_group").data]),
  (("Google Shopping / MPN").data, [("google shopping / mpn").data, ("mpn").data, ("manufacturer_part_number").data]),
  (("Google Shopping / AdWords Grouping").data, [("google shopping / adwords grouping").data, ("adwords grouping").data, ("adwords_grouping").data]),
  (("Google Shopping / AdWords Labels").data, [("google shopping / adwords labels").data, ("adwords labels").data, ("adwords_labels").data]),
  (("Google Shopping / Condition").data, [("google shopping / condition").data, ("condition").data, ("product_condition").data]),
  (("Google Shopping / Custom Product").data, [("google shopping / custom product").data, ("custom product").data, ("custom_product").data]),
  (("Google Shopping / Custom Label 0").data, [("google shopping / custom label 0").data, ("custom label 0").data, ("custom_label_0").data]),
  (("Google Shopping / Custom Label 1").data, [("google shopping / custom label 1").data, ("custom label 1").data, ("custom_label_1").data]),
  (("Google Shopping / Custom Label 2").data, [("google shopping / custom label 2").data, ("custom label 2").data, ("custom_label_2").data]),
  (("Google Shopping / Custom Label 3").data, [("google shopping / custom label 3").data, ("custom label 3").data, ("custom_label_3").data]),
  (("Google Shopping / Custom Label 4").data, [("google shopping / custom label 4").data, ("custom label 4").data, ("custom_label_4").data]),
  (("Cost per item").data, [("cost per item").data, ("cost_per_item").data, ("cost").data, ("wholesale_price").data, ("wholesale price").data]),
  (("Price / International").data, [("price / international").data, ("price_international").data, ("international_price").data]),
  (("Compare At Price / International").data, [("compare at price / international").data, ("compare_at_price_international").data, ("international_compare_price").data]),
  (("Status").data, [("status").data, ("product_status").data, ("active").data, ("draft").data, ("archived").data]),
  (("no of components").data, [("no of components").data, ("no_of_components").data, ("components").data, ("number_of_components").data, ("component_count").data]),
  (("fabric").data, [("fabric").data, ("material").data, ("fabric_type").data, ("fabric type").data]),
  (("celebs name").data, [("celebs name").data, ("celebs_name").data, ("celebrity_name").data, ("celebrity name").data]),
  (("fit").data, [("fit").data, ("fitting").data, ("size_fit").data, ("size fit").data]),
  (("sizes info").data, [("sizes info").data, ("sizes_info").data, ("size_info").data, ("size info").data]),
  (("delivery time").data, [("delivery time").data, ("delivery_time").data, ("shipping_time").data, ("shipping time").data]),
  (("wash care").data, [("wash care").data, ("wash_care").data, ("care_instructions").data, ("care instructions").data]),
  (("technique used").data, [("technique used").data, ("technique_used").data, ("manufacturing_technique").data]),
  (("embroidery details").data, [("embroidery details").data, ("embroidery_details").data, ("embroidery").data])
]

/-- Commonly used score constants. -/
def frac0 : Frac := ⟨0, 1, by decide⟩

/-- The constant 1.0. -/
def frac1 : Frac := ⟨1, 1, by decide⟩

/-- The constant 0.5. -/
def frac05 : Frac := ⟨5, 10, by decide⟩

/-- The constant 0.6. -/
def frac06 : Frac := ⟨6, 10, by decide⟩

/-- The constant 0.7. -/
def frac07 : Frac := ⟨7, 10, by decide⟩

/-- The constant 0.8. -/
def frac08 : Frac := ⟨8, 10, by decide⟩

/-- Python `{col.lower().strip(): col for col in df.columns}`: later
duplicates overwrite earlier ones, insertion order is kept. -/
def actualColumnsLower (cols : List Str) : List (Str × Str) :=
  cols.foldl (fun m col => dinsert m (pyStrip (pyLower col)) col) []

/-- Embedding of `ColumnMapper._exact_match` (column_mapper.py lines
55-66): for each canonical field take the first accepted spelling present
among the lowered, stripped column names. -/
def exact_match (cols : List Str) : List (Str × Str) :=
  standardVariants.foldl (fun mapping fv =>
    match fv.2.find? (fun v => dContainsKey (actualColumnsLower cols) (pyLower v)) with
    | some v => dinsert mapping fv.1 ((dget (actualColumnsLower cols) (pyLower v)).getD [])
    | none => mapping) []

/-- Regex `[_\-\s]+` removal used by `_calculate_similarity`. -/
def stripPunct (s : Str) : Str :=
  s.filter (fun c => !(decide (c = '_') || decide (c = '-') || c.isWhitespace))

/-- Python substring test `small in big`. -/
def strContainsSub (big small : Str) : Bool :=
  (List.range (big.length + 1)).any (fun i => decide ((big.drop i).take small.length = small))

/-- Embedding of `ColumnMapper._calculate_similarity` (lines 99-112),
parameterized by the `SequenceMatcher.ratio` function: clean both strings,
take the ratio, and force a floor of 0.8 when one cleaned string contains
the other. -/
def calculate_similarity (ratio : Str → Str → Frac) (s1 s2 : Str) : Frac :=
  let c1 := stripPunct s1
  let c2 := stripPunct s2
  let sim := ratio c1 c2
  if strContainsSub c1 c2 || strContainsSub c2 c1 then Frac.pymax sim frac08 else sim

/-- Embedding of `ColumnMapper._find_best_fuzzy_match` (lines 82-97):
scan every still-unmapped canonical field's spellings, tracking the best
similarity that strictly exceeds both the current best and 0.7. -/
def find_best_fuzzy_match (ratio : Str → Str → Frac) (column : Str)
    (existing : List (Str × Str)) : Option (Str × Frac) :=
  let res := standardVariants.foldl (fun best fv =>
    if dContainsKey existing fv.1 then best
    else fv.2.foldl (fun best v =>
      let sim := calculate_similarity ratio (pyLower column) (pyLower v)
      if Frac.blt best.1 sim && Frac.blt frac07 sim then (sim, some fv.1) else best) best)
    (frac0, (none : Option Str))
  match res.2 with
  | some f => some (f, res.1)
  | none => none

/-- Embedding of `ColumnMapper._fuzzy_match` (lines 68-80). -/
def fuzzy_match (ratio : Str → Str → Frac) (unmapped : List Str)
    (existing : List (Str × Str)) : List (Str × Str) × List (Str × Frac) :=
  unmapped.foldl (fun acc col =>
    match find_best_fuzzy_match ratio col existing with
    | some fc => (dinsert acc.1 fc.1 col, dinsert acc.2 col fc.2)
    | none => acc) ([], [])

/-- The six sample statistics of `_is_price_column` … `_is_code_column`
for one column (the code score already folds in the column-name bonus). -/
structure ContentScores where
  price : Frac
  status : Frac
  size : Frac
  color : Frac
  category : Frac
  code : Frac

/-- Embedding of `ColumnMapper._detect_column_type` (lines 133-161): the
priority cascade over the six scores with its fixed thresholds and fixed
returned confidences. -/
def detect_column_type (sc : ContentScores) : Option Str × Frac :=
  if Frac.blt frac07 sc.price then (some ("variant price").data, frac08)
  else if Frac.blt frac06 sc.status then (some ("published").data, frac07)
  else if Frac.blt frac06 sc.size then (some ("size").data, frac07)
  else if Frac.blt frac06 sc.color then (some ("colour").data, frac07)
  else if Frac.blt frac05 sc.category then (some ("product category").data, frac06)
  else if Frac.blt frac07 sc.code then (some ("product code").data, frac08)
  else (none, frac0)

/-- Embedding of `ColumnMapper._content_analysis` (lines 114-131): accept
a detected type only when its confidence strictly exceeds 0.6 and the
detected canonical name is not already in the existing (exact) mapping. -/
def content_analysis (sniff : Str → Option ContentScores) (unmapped : List Str)
    (existing : List (Str × Str)) : List (Str × Str) × List (Str × Frac) :=
  unmapped.foldl (fun acc col =>
    match sniff col with
    | none => acc
    | some sc =>
        match detect_column_type sc with
        | (some dt, conf) =>
            if Frac.blt frac06 conf && !(dContainsKey existing dt) then
              (dinsert acc.1 dt col, dinsert acc.2 col conf)
            else acc
        | (none, _) => acc) ([], [])

/-- Columns not used by the exact mapping (analyze_columns step 2). -/
def unmappedColumns (cols : List Str) : List Str :=
  cols.filter (fun col => decide (col ∉ dvalues (exact_match cols)))

/-- The fuzzy pass as called by `analyze_columns` (step 3). -/
def fuzzyPass (ratio : Str → Str → Frac) (cols : List Str) :
    List (Str × Str) × List (Str × Frac) :=
  fuzzy_match ratio (unmappedColumns cols) (exact_match cols)

/-- Columns left for content analysis (analyze_columns step 4): unmapped
columns not selected by the fuzzy mapping. -/
def remainingUnmapped (ratio : Str → Str → Frac) (cols : List Str) : List Str :=
  (unmappedColumns cols).filter (fun col => decide (col ∉ dvalues (fuzzyPass ratio cols).1))

/-- The content pass as called by `analyze_columns` (step 4); note the
source passes `base_mapping`, not the fuzzy-extended mapping, as the
`existing_mapping` argument. -/
def contentPass (ratio : Str → Str → Frac) (sniff : Str → Option ContentScores)
    (cols : List Str) : List (Str × Str) × List (Str × Frac) :=
  content_analysis sniff (remainingUnmapped ratio cols) (exact_match cols)

/-- Step 5 of `analyze_columns`: `base.copy()`, `update(fuzzy)`,
`update(content)`. -/
def final_mapping (ratio : Str → Str → Frac) (sniff : Str → Option ContentScores)
    (cols : List Str) : List (Str × Str) :=
  dupdate (dupdate (exact_match cols) (fuzzyPass ratio cols).1) (contentPass ratio sniff cols).1

/-- Confidence scores: 1.0 for every exactly matched column, then updated
with the fuzzy and content confidences (lines 44-48). -/
def confidence_scores (ratio : Str → Str → Frac) (sniff : Str → Option ContentScores)
    (cols : List Str) : List (Str × Frac) :=
  dupdate (dupdate ((exact_match cols).foldl (fun acc p => dinsert acc p.2 frac1) [])
    (fuzzyPass ratio cols).2) (contentPass ratio sniff cols).2

/-- Container mirroring `MappingResult` (column_mapper.py lines 8-13);
as in the source, the `base_mapping` field holds the final mapping. -/
structure MappingResult where
  base_mapping : List (Str × Str)
  unmapped_columns : List Str
  confidence_scores : List (Str × Frac)

/-- Embedding of `ColumnMapper.analyze_columns` (lines 22-53). -/
def analyze_columns (ratio : Str → Str → Frac) (sniff : Str → Option ContentScores)
    (cols : List Str) : MappingResult :=
  ⟨final_mapping ratio sniff cols,
   cols.filter (fun col => decide (col ∉ dvalues (final_mapping ratio sniff cols))),
   confidence_scores ratio sniff cols⟩

/-! ## `difflib.SequenceMatcher.ratio`

Faithful executable model of CPython's `SequenceMatcher` (without the
junk/autojunk machinery, which is inert for sequences shorter than 200
characters — every string this code base compares is far shorter):
`find_longest_match` by the `j2len` dynamic program, recursive matching
blocks, `ratio = 2*M / (len(a)+len(b))`. -/

/-- Ascending positions `j ∈ [blo, bhi)` with `b[j] = ch` (difflib's `b2j`
occurrence lists restricted to the window). -/
def flmPositions (b : Str) (ch : Char) (blo bhi : Nat) : List Nat :=
  ((List.range bhi).drop blo).filter (fun j => decide (b.getD j ' ' = ch))

/-- Lookup in the `j2len` map (missing key → 0). -/
def lookupJ (m : List (Nat × Nat)) (j : Nat) : Nat :=
  match m.find? (fun p => decide (p.1 = j)) with
  | some p => p.2
  | none => 0

/-- One row of the `find_longest_match` dynamic program: process `a[i]`,
reading run lengths from the previous row and tracking the earliest
longest block `(besti, bestj, bestsize)`. -/
def flmRow (b : Str) (ai : Char) (i blo bhi : Nat) (j2len : List (Nat × Nat))
    (best : Nat × Nat × Nat) : List (Nat × Nat) × (Nat × Nat × Nat) :=
  (flmPositions b ai blo bhi).foldl (fun st j =>
    let k := (if j = 0 then 0 else lookupJ j2len (j - 1)) + 1
    let best' := if st.2.2.2 < k then (i + 1 - k, j + 1 - k, k) else st.2
    ((j, k) :: st.1, best'))
    ([], best)

/-- `find_longest_match(alo, ahi, blo, bhi)` for junk-free sequences. -/
def findLongestMatch (a b : Str) (alo ahi blo bhi : Nat) : Nat × Nat × Nat :=
  (((List.range ahi).drop alo).foldl (fun st i =>
    flmRow b (a.getD i ' ') i blo bhi st.1 st.2)
    (([] : List (Nat × Nat)), (alo, blo, 0))).2

/-- Total size of all matching blocks (the recursion of
`get_matching_blocks`, fuelled; the ranges shrink at every call). -/
def matchesTotal (a b : Str) : Nat → Nat → Nat → Nat → Nat → Nat
  | 0, _, _, _, _ => 0
  | Nat.succ fuel, alo, ahi, blo, bhi =>
      let m := findLongestMatch a b alo ahi blo bhi
      if m.2.2 = 0 then 0
      else m.2.2 + matchesTotal a b fuel alo m.1 blo m.2.1 +
           matchesTotal a b fuel (m.1 + m.2.2) ahi (m.2.1 + m.2.2) bhi

/-- `SequenceMatcher(None, s, t).ratio()` as an exact fraction. -/
def difflibRatio (s t : Str) : Frac :=
  let total := s.length + t.length
  if h : total = 0 then frac1
  else ⟨(2 * matchesTotal s t (total + 1) 0 s.length 0 t.length : Int), total,
    Nat.pos_of_ne_zero h⟩

example : difflibRatio ("title").data ("title").data = ⟨10, 10, by decide⟩ := by decide
example : difflibRatio ("title").data ("handle").data = ⟨4, 11, by decide⟩ := by decide
example : difflibRatio ("title").data ("producttitle").data = ⟨10, 17, by decide⟩ := by decide
example : difflibRatio ("title").data ("name").data = ⟨2, 9, by decide⟩ := by decide
example : difflibRatio ("title").data ("productname").data = ⟨4, 16, by decide⟩ := by decide
example : difflibRatio ("abcab").data ("babca").data = ⟨8, 10, by decide⟩ := by decide
example : difflibRatio ("aabbcc").data ("abccba").data = ⟨8, 12, by decide⟩ := by decide
example : difflibRatio ("xyz").data ("").data = ⟨0, 3, by decide⟩ := by decide
example : difflibRatio ("").data ("").data = frac1 := by decide
example : difflibRatio ("mississippi").data ("missouri").data = ⟨10, 19, by decide⟩ := by decide
example : difflibRatio ("aaaa").data ("aa").data = ⟨4, 6, by decide⟩ := by decide
example : difflibRatio ("ab").data ("ba").data = ⟨2, 4, by decide⟩ := by decide

/-! ## Lemmas about the dict operations -/

theorem dget_nil {α} (q : Str) : dget ([] : List (Str × α)) q = none := rfl

theorem dget_cons_pos {α} {p : Str × α} {rest : List (Str × α)} {q : Str} (h : p.1 = q) :
    dget (p :: rest) q = some p.2 := by
  simp only [dget]
  rw [List.find?_cons_of_pos _ (by simpa using h)]

theorem dget_cons_neg {α} {p : Str × α} {rest : List (Str × α)} {q : Str} (h : ¬ p.1 = q) :
    dget (p :: rest) q = dget rest q := by
  simp only [dget]
  rw [List.find?_cons_of_neg _ (by simpa using h)]

theorem dContainsKey_nil {α} (q : Str) : dContainsKey ([] : List (Str × α)) q = false := rfl

theorem dContainsKey_cons {α} (p : Str × α) (rest : List (Str × α)) (q : Str) :
    dContainsKey (p :: rest) q = (decide (p.1 = q) || dContainsKey rest q) := by
  simp [dContainsKey]

theorem dget_dinsert {α} (d : List (Str × α)) (k : Str) (v : α) (q : Str) :
    dget (dinsert d k v) q = if q = k then some v else dget d q := by
  induction d with
  | nil =>
      by_cases hq : q = k
      · rw [dinsert, if_pos hq, dget_cons_pos hq.symm]
      · rw [dinsert, if_neg hq, dget_cons_neg (fun h => hq h.symm)]
  | cons p rest ih =>
      by_cases hp : p.1 = k
      · rw [dinsert, if_pos hp]
        by_cases hq : q = k
        · rw [if_pos hq, dget_cons_pos hq.symm]
        · rw [if_neg hq, dget_cons_neg (fun h => hq h.symm),
            dget_cons_neg (fun h => hq ((hp.symm.trans h).symm ▸ rfl))]
      · rw [dinsert, if_neg hp]
        by_cases hpq : p.1 = q
        · have hq : ¬ q = k := fun h => hp (hpq.trans h)
          rw [dget_cons_pos hpq, if_neg hq, dget_cons_pos hpq]
        · rw [dget_cons_neg hpq, ih]
          by_cases hq : q = k
          · rw [if_pos hq, if_pos hq]
          · rw [if_neg hq, if_neg hq, dget_cons_neg hpq]

theorem dContainsKey_dinsert {α} (d : List (Str × α)) (k : Str) (v : α) (q : Str) :
    dContainsKey (dinsert d k v) q = (decide (q = k) || dContainsKey d q) := by
  induction d with
  | nil => simp [dinsert, dContainsKey, eq_comm]
  | cons p rest ih =>
      by_cases hp : p.1 = k
      · rw [dinsert, if_pos hp, dContainsKey_cons, dContainsKey_cons, hp]
        by_cases hq : q = k
        · simp [hq]
        · rw [show decide (q = k) = false from by
              simp only [decide_eq_false_iff_not]; exact hq,
            show decide ((k : Str) = q) = false from by
              simp only [decide_eq_false_iff_not]; exact fun h => hq h.symm]
          simp
      · rw [dinsert, if_neg hp, dContainsKey_cons, ih, dContainsKey_cons]
        simp [Bool.or_left_comm]

theorem dContainsKey_iff_dget {α} (d : List (Str × α)) (q : Str) :
    dContainsKey d q = true ↔ ∃ v, dget d q = some v := by
  induction d with
  | nil => simp [dContainsKey_nil, dget_nil]
  | cons p rest ih =>
      by_cases hp : p.1 = q
      · constructor
        · intro _
          exact ⟨p.2, dget_cons_pos hp⟩
        · intro _
          rw [dContainsKey_cons]
          simp [hp]
      · rw [dContainsKey_cons, show decide (p.1 = q) = false from by
          simp only [decide_eq_false_iff_not]; exact hp, dget_cons_neg hp]
        simpa using ih

/-- Duplicate-free key list. -/
def dNodupKeys {α} (d : List (Str × α)) : Prop := (d.map (fun p => p.1)).Nodup

theorem dNodupKeys_nil {α} : dNodupKeys ([] : List (Str × α)) := by
  simp [dNodupKeys]

theorem dContainsKey_of_key_mem {α} {d : List (Str × α)} {p : Str × α} (h : p ∈ d) :
    dContainsKey d p.1 = true := by
  rw [dContainsKey]
  exact List.any_eq_true.mpr ⟨p, h, by simp⟩

theorem key_mem_of_dContainsKey {α} {d : List (Str × α)} {q : Str}
    (h : dContainsKey d q = true) : q ∈ d.map (fun p => p.1) := by
  rw [dContainsKey] at h
  rcases List.any_eq_true.mp h with ⟨p, hp, hpq⟩
  have : p.1 = q := by simpa using hpq
  rw [← this]
  exact List.mem_map_of_mem _ hp

theorem dContainsKey_of_key_mem_map {α} {d : List (Str × α)} {q : Str}
    (h : q ∈ d.map (fun p => p.1)) : dContainsKey d q = true := by
  rcases List.mem_map.mp h with ⟨p, hp, hpq⟩
  rw [← hpq]
  exact dContainsKey_of_key_mem hp

theorem dNodupKeys_dinsert {α} {d : List (Str × α)} (h : dNodupKeys d) (k : Str) (v : α) :
    dNodupKeys (dinsert d k v) := by
  induction d with
  | nil => simp [dinsert, dNodupKeys]
  | cons p rest ih =>
      rw [dNodupKeys, List.map_cons, List.nodup_cons] at h
      by_cases hp : p.1 = k
      · rw [dinsert, if_pos hp, dNodupKeys, List.map_cons, List.nodup_cons]
        exact ⟨hp ▸ h.1, h.2⟩
      · rw [dinsert, if_neg hp, dNodupKeys, List.map_cons, List.nodup_cons]
        refine ⟨?_, ih h.2⟩
        intro hc
        have hck : dContainsKey (dinsert rest k v) p.1 = true :=
          dContainsKey_of_key_mem_map hc
        rw [dContainsKey_dinsert] at hck
        rcases Bool.or_eq_true_iff.mp hck with h3 | h3
        · exact hp (by simpa using h3)
        · exact h.1 (key_mem_of_dContainsKey h3)

theorem dget_dupdate {α} (d : List (Str × α)) :
    ∀ e : List (Str × α), dNodupKeys e → ∀ q,
      dget (dupdate d e) q = if dContainsKey e q then dget e q else dget d q := by
  intro e
  induction e generalizing d with
  | nil => intro _ q; simp [dupdate, dContainsKey_nil, dget_nil]
  | cons p rest ih =>
      intro hnd q
      rw [dNodupKeys, List.map_cons, List.nodup_cons] at hnd
      have hstep : dupdate d (p :: rest) = dupdate (dinsert d p.1 p.2) rest := rfl
      rw [hstep, ih (dinsert d p.1 p.2) hnd.2 q]
      by_cases hrest : dContainsKey rest q = true
      · rw [if_pos hrest]
        have hpq : ¬ p.1 = q := by
          intro hc
          exact hnd.1 (hc ▸ key_mem_of_dContainsKey hrest)
        rw [if_pos (by rw [dContainsKey_cons]; simp [hrest]), dget_cons_neg hpq]
      · rw [if_neg hrest, dget_dinsert]
        by_cases hq : q = p.1
        · rw [if_pos hq,
            if_pos (by rw [dContainsKey_cons]; simp [hq.symm]), dget_cons_pos hq.symm]
        · rw [if_neg hq,
            if_neg (by rw [dContainsKey_cons]
                       simp only [Bool.or_eq_true, not_or]
                       refine ⟨?_, by simpa using hrest⟩
                       simp only [decide_eq_true_eq]
                       exact fun h => hq h.symm)]

theorem dContainsKey_dupdate {α} (d : List (Str × α)) :
    ∀ e : List (Str × α), ∀ q,
      dContainsKey (dupdate d e) q = (dContainsKey d q || dContainsKey e q) := by
  intro e
  induction e generalizing d with
  | nil => intro q; simp [dupdate, dContainsKey_nil]
  | cons p rest ih =>
      intro q
      have hstep : dupdate d (p :: rest) = dupdate (dinsert d p.1 p.2) rest := rfl
      rw [hstep, ih, dContainsKey_dinsert, dContainsKey_cons]
      rw [show decide (q = p.1) = decide (p.1 = q) from
        decide_eq_decide.mpr ⟨fun h => h.symm, fun h => h.symm⟩]
      simp [Bool.or_left_comm, Bool.or_assoc]

/-! ## Order lemmas on `Frac` -/

theorem Frac.blt_iff {x y : Frac} : Frac.blt x y = true ↔ x.toRat < y.toRat := by
  have hx : (0 : ℚ) < (x.den : ℚ) := x.toRat_den_pos
  have hy : (0 : ℚ) < (y.den : ℚ) := y.toRat_den_pos
  rw [Frac.blt, decide_eq_true_eq, Frac.toRat, Frac.toRat, div_lt_div_iff₀ hx hy]
  constructor
  · intro h; exact_mod_cast h
  · intro h; exact_mod_cast h

theorem Frac.ble_iff {x y : Frac} : Frac.ble x y = true ↔ x.toRat ≤ y.toRat := by
  have hx : (0 : ℚ) < (x.den : ℚ) := x.toRat_den_pos
  have hy : (0 : ℚ) < (y.den : ℚ) := y.toRat_den_pos
  rw [Frac.ble, decide_eq_true_eq, Frac.toRat, Frac.toRat, div_le_div_iff₀ hx hy]
  constructor
  · intro h; exact_mod_cast h
  · intro h; exact_mod_cast h

theorem Frac.pymax_le {a b c : Frac} (ha : a.toRat ≤ c.toRat) (hb : b.toRat ≤ c.toRat) :
    (Frac.pymax a b).toRat ≤ c.toRat := by
  rw [Frac.pymax]
  split <;> assumption

theorem Frac.pymax_le_left {a b : Frac} : a.toRat ≤ (Frac.pymax a b).toRat := by
  rw [Frac.pymax]
  split
  · exact le_refl _
  · rename_i h
    have : ¬ b.toRat ≤ a.toRat := by
      intro hc
      exact absurd (Frac.ble_iff.mpr hc) (by simpa using h)
    linarith [lt_of_not_le this]

/-! ## Invariants of the three mapper passes -/

/-- The six canonical names `_detect_column_type` can return. -/
def detectedNames : List Str :=
  [("variant price").data, ("published").data, ("size").data, ("colour").data,
   ("product category").data, ("product code").data]

theorem bool_eq_false_of_ne_true {b : Bool} (h : ¬ b = true) : b = false := by
  cases b
  · rfl
  · exact absurd rfl h

theorem detect_column_type_spec (sc : ContentScores) (dt : Str) (conf : Frac)
    (h : detect_column_type sc = (some dt, conf)) :
    dt ∈ detectedNames ∧ (conf = frac06 ∨ conf = frac07 ∨ conf = frac08) ∧
    (dt = ("product category").data → conf = frac06) := by
  rw [detect_column_type] at h
  split at h
  · injection h with h1 h2; injection h1 with h1; subst h1; subst h2
    exact ⟨by decide, Or.inr (Or.inr rfl), fun hc => absurd hc (by decide)⟩
  · split at h
    · injection h with h1 h2; injection h1 with h1; subst h1; subst h2
      exact ⟨by decide, Or.inr (Or.inl rfl), fun hc => absurd hc (by decide)⟩
    · split at h
      · injection h with h1 h2; injection h1 with h1; subst h1; subst h2
        exact ⟨by decide, Or.inr (Or.inl rfl), fun hc => absurd hc (by decide)⟩
      · split at h
        · injection h with h1 h2; injection h1 with h1; subst h1; subst h2
          exact ⟨by decide, Or.inr (Or.inl rfl), fun hc => absurd hc (by decide)⟩
        · split at h
          · injection h with h1 h2; injection h1 with h1; subst h1; subst h2
            exact ⟨by decide, Or.inl rfl, fun _ => rfl⟩
          · split at h
            · injection h with h1 h2; injection h1 with h1; subst h1; subst h2
              exact ⟨by decide, Or.inr (Or.inr rfl), fun hc => absurd hc (by decide)⟩
            · injection h with h1 _
              exact Option.noConfusion h1

theorem dvalues_cons {α : Type} (p : Str × α) (l : List (Str × α)) :
    dvalues (p :: l) = p.2 :: dvalues l := rfl

theorem dvalues_dinsert {α : Type} (d : List (Str × α)) (k : Str) (v : α) :
    ∀ x ∈ dvalues (dinsert d k v), x = v ∨ x ∈ dvalues d := by
  induction d with
  | nil =>
      intro x hx
      have hd : dinsert ([] : List (Str × α)) k v = [(k, v)] := rfl
      rw [hd, dvalues_cons] at hx
      rcases List.mem_cons.mp hx with h | h
      · exact Or.inl h
      · exact absurd h (by simp [dvalues])
  | cons p rest ih =>
      intro x hx
      by_cases hp : p.1 = k
      · have hd : dinsert (p :: rest) k v = (k, v) :: rest := by rw [dinsert, if_pos hp]
        rw [hd, dvalues_cons] at hx
        rcases List.mem_cons.mp hx with h | h
        · exact Or.inl h
        · refine Or.inr ?_
          rw [dvalues_cons]
          exact List.mem_cons_of_mem _ h
      · have hd : dinsert (p :: rest) k v = p :: dinsert rest k v := by rw [dinsert, if_neg hp]
        rw [hd, dvalues_cons] at hx
        rcases List.mem_cons.mp hx with h | h
        · refine Or.inr ?_
          rw [dvalues_cons, h]
          exact List.mem_cons_self _ _
        · rcases ih x h with h1 | h1
          · exact Or.inl h1
          · refine Or.inr ?_
            rw [dvalues_cons]
            exact List.mem_cons_of_mem _ h1

theorem mem_dvalues_dinsert_self {α : Type} (d : List (Str × α)) (k : Str) (v : α) :
    v ∈ dvalues (dinsert d k v) := by
  induction d with
  | nil => simp [dinsert, dvalues]
  | cons p rest ih =>
      by_cases hp : p.1 = k
      · have hd : dinsert (p :: rest) k v = (k, v) :: rest := by rw [dinsert, if_pos hp]
        rw [hd, dvalues_cons]
        exact List.mem_cons_self _ _
      · have hd : dinsert (p :: rest) k v = p :: dinsert rest k v := by rw [dinsert, if_neg hp]
        rw [hd, dvalues_cons]
        exact List.mem_cons_of_mem _ ih

/-- One step of the `_content_analysis` loop (the body of its fold). -/
def contentStep (sniff : Str → Option ContentScores) (existing : List (Str × Str))
    (acc : List (Str × Str) × List (Str × Frac)) (col : Str) :
    List (Str × Str) × List (Str × Frac) :=
  match sniff col with
  | none => acc
  | some sc =>
      match detect_column_type sc with
      | (some dt, conf) =>
          if Frac.blt frac06 conf && !(dContainsKey existing dt) then
            (dinsert acc.1 dt col, dinsert acc.2 col conf)
          else acc
      | (none, _) => acc

theorem content_analysis_eq_foldl (sniff : Str → Option ContentScores)
    (unmapped : List Str) (existing : List (Str × Str)) :
    content_analysis sniff unmapped existing =
      unmapped.foldl (contentStep sniff existing) ([], []) := rfl

/-- Invariant maintained by the `_content_analysis` loop: duplicate-free
dicts, detected fields come from the fixed list, `product category` is never
assigned, confidences are 0.7 or 0.8, and every mapped column has a
confidence entry. -/
def contentInv (acc : List (Str × Str) × List (Str × Frac)) : Prop :=
  dNodupKeys acc.1 ∧ dNodupKeys acc.2 ∧
  (∀ f, dContainsKey acc.1 f = true → f ∈ detectedNames) ∧
  dContainsKey acc.1 (("product category").data) = false ∧
  (∀ col v, dget acc.2 col = some v → v = frac07 ∨ v = frac08) ∧
  (∀ col, col ∈ dvalues acc.1 → dContainsKey acc.2 col = true)

theorem contentStep_inv (sniff : Str → Option ContentScores)
    (existing : List (Str × Str)) (acc : List (Str × Str) × List (Str × Frac))
    (col : Str) (hinv : contentInv acc) :
    contentInv (contentStep sniff existing acc col) ∧
    (∀ c, dContainsKey (contentStep sniff existing acc col).2 c = true →
      dContainsKey acc.2 c = true ∨ c = col) := by
  obtain ⟨hn1, hn2, hdet, hpc, hconf, hval⟩ := hinv
  rcases hsc : sniff col with _ | sc
  · simp only [contentStep, hsc]
    exact ⟨⟨hn1, hn2, hdet, hpc, hconf, hval⟩, fun c hc => Or.inl hc⟩
  · rcases hdt : detect_column_type sc with ⟨odt, conf⟩
    rcases odt with _ | dt
    · simp only [contentStep, hsc, hdt]
      exact ⟨⟨hn1, hn2, hdet, hpc, hconf, hval⟩, fun c hc => Or.inl hc⟩
    · simp only [contentStep, hsc, hdt]
      by_cases hg : (Frac.blt frac06 conf && !(dContainsKey existing dt)) = true
      · rw [if_pos hg]
        obtain ⟨hmem, hrange, hcat⟩ := detect_column_type_spec sc dt conf hdt
        have hgl : Frac.blt frac06 conf = true := by
          simp only [Bool.and_eq_true] at hg
          exact hg.1
        have hne06 : conf ≠ frac06 := by
          intro he
          rw [he] at hgl
          exact absurd hgl (by decide)
        have hrange2 : conf = frac07 ∨ conf = frac08 := by
          rcases hrange with h | h | h
          · exact absurd h hne06
          · exact Or.inl h
          · exact Or.inr h
        have hdtpc : ¬ (("product category").data = dt) := fun he => hne06 (hcat he.symm)
        constructor
        · refine ⟨dNodupKeys_dinsert hn1 dt col, dNodupKeys_dinsert hn2 col conf, ?_, ?_, ?_, ?_⟩
          · intro f hf
            rw [dContainsKey_dinsert] at hf
            rcases Bool.or_eq_true_iff.mp hf with h | h
            · rw [decide_eq_true_eq] at h
              exact h ▸ hmem
            · exact hdet f h
          · rw [dContainsKey_dinsert, hpc, Bool.or_false]
            simp only [decide_eq_false_iff_not]
            exact hdtpc
          · intro c v hv
            rw [dget_dinsert] at hv
            by_cases hcc : c = col
            · rw [if_pos hcc] at hv
              injection hv with hv
              exact hv ▸ hrange2
            · rw [if_neg hcc] at hv
              exact hconf c v hv
          · intro c hcmem
            rcases dvalues_dinsert acc.1 dt col c hcmem with h | h
            · rw [h, dContainsKey_dinsert]
              simp
            · rw [dContainsKey_dinsert, hval c h]
              simp
        · intro c hc
          rw [dContainsKey_dinsert] at hc
          rcases Bool.or_eq_true_iff.mp hc with h | h
          · exact Or.inr (by rwa [decide_eq_true_eq] at h)
          · exact Or.inl h
      · rw [if_neg hg]
        exact ⟨⟨hn1, hn2, hdet, hpc, hconf, hval⟩, fun c hc => Or.inl hc⟩

theorem content_fold_inv (sniff : Str → Option ContentScores)
    (existing : List (Str × Str)) :
    ∀ (l : List Str) (acc : List (Str × Str) × List (Str × Frac)),
      contentInv acc →
      contentInv (l.foldl (contentStep sniff existing) acc) ∧
      (∀ c, dContainsKey (l.foldl (contentStep sniff existing) acc).2 c = true →
        dContainsKey acc.2 c = true ∨ c ∈ l) := by
  intro l
  induction l with
  | nil =>
      intro acc hinv
      exact ⟨hinv, fun c hc => Or.inl hc⟩
  | cons c0 cs ih =>
      intro acc hinv
      rw [List.foldl_cons]
      obtain ⟨hstep, hrel0⟩ := contentStep_inv sniff existing acc c0 hinv
      obtain ⟨hind, hrel⟩ := ih (contentStep sniff existing acc c0) hstep
      refine ⟨hind, ?_⟩
      intro c hc
      rcases hrel c hc with h | h
      · rcases hrel0 c h with h1 | h1
        · exact Or.inl h1
        · exact Or.inr (h1 ▸ List.mem_cons_self _ _)
      · exact Or.inr (List.mem_cons_of_mem _ h)

theorem content_analysis_spec (sniff : Str → Option ContentScores)
    (unmapped : List Str) (existing : List (Str × Str)) :
    contentInv (content_analysis sniff unmapped existing) ∧
    (∀ c, dContainsKey (content_analysis sniff unmapped existing).2 c = true →
      c ∈ unmapped) := by
  rw [content_analysis_eq_foldl]
  have hbase : contentInv ([], []) := by
    refine ⟨dNodupKeys_nil, dNodupKeys_nil, ?_, rfl, ?_, ?_⟩
    · intro f hf
      exact absurd hf Bool.false_ne_true
    · intro c v hv
      exact absurd hv (by simp [dget_nil])
    · intro c hc
      exact absurd hc (by simp [dvalues])
  obtain ⟨hi, hr⟩ := content_fold_inv sniff existing unmapped ([], []) hbase
  refine ⟨hi, ?_⟩
  intro c hc
  rcases hr c hc with h | h
  · exact absurd h Bool.false_ne_true
  · exact h

/-! ## Invariants of the fuzzy pass -/

/-- One inner step of `_find_best_fuzzy_match`: try one accepted spelling of
the candidate field `fname`. -/
def fuzzyInnerStep (ratio : Str → Str → Frac) (column : Str) (fname : Str)
    (best : Frac × Option Str) (v : Str) : Frac × Option Str :=
  let sim := calculate_similarity ratio (pyLower column) (pyLower v)
  if Frac.blt best.1 sim && Frac.blt frac07 sim then (sim, some fname) else best

/-- One outer step of `_find_best_fuzzy_match`: skip an already-mapped
canonical field, otherwise scan its spellings. -/
def fuzzyOuterStep (ratio : Str → Str → Frac) (column : Str)
    (existing : List (Str × Str)) (best : Frac × Option Str)
    (fv : Str × List Str) : Frac × Option Str :=
  if dContainsKey existing fv.1 then best
  else fv.2.foldl (fuzzyInnerStep ratio column fv.1) best

theorem find_best_fuzzy_match_eq (ratio : Str → Str → Frac) (column : Str)
    (existing : List (Str × Str)) :
    find_best_fuzzy_match ratio column existing =
      match (standardVariants.foldl (fuzzyOuterStep ratio column existing)
          (frac0, (none : Option Str))).2 with
      | some f => some (f, (standardVariants.foldl (fuzzyOuterStep ratio column existing)
          (frac0, (none : Option Str))).1)
      | none => none := rfl

/-- Invariant of the `_find_best_fuzzy_match` accumulator: whenever a best
field has been recorded, it is an unmapped canonical field and the best
score is above 0.7 (and at most 1 when the `ratio` function is). -/
def fbQ (ratio : Str → Str → Frac) (existing : List (Str × Str))
    (best : Frac × Option Str) : Prop :=
  ∀ g, best.2 = some g →
    dContainsKey existing g = false ∧ g ∈ standardVariants.map (fun p => p.1) ∧
    Frac.blt frac07 best.1 = true ∧
    ((∀ a b, Frac.ble (ratio a b) frac1 = true) → Frac.ble best.1 frac1 = true)

theorem frac08_toRat_le_one : (frac08).toRat ≤ (frac1).toRat := by
  norm_num [Frac.toRat, frac08, frac1]

theorem calculate_similarity_le_one (ratio : Str → Str → Frac)
    (hb : ∀ a b, Frac.ble (ratio a b) frac1 = true) (s1 s2 : Str) :
    Frac.ble (calculate_similarity ratio s1 s2) frac1 = true := by
  simp only [calculate_similarity]
  split
  · rw [Frac.ble_iff]
    exact Frac.pymax_le (Frac.ble_iff.mp (hb _ _)) frac08_toRat_le_one
  · exact hb _ _

theorem fuzzyInner_inv (ratio : Str → Str → Frac) (column : Str)
    (existing : List (Str × Str)) (fname : Str)
    (h1 : dContainsKey existing fname = false)
    (h2 : fname ∈ standardVariants.map (fun p => p.1)) :
    ∀ (vl : List Str) (best : Frac × Option Str), fbQ ratio existing best →
      fbQ ratio existing (vl.foldl (fuzzyInnerStep ratio column fname) best) := by
  intro vl
  induction vl with
  | nil =>
      intro best hq
      exact hq
  | cons v vs ih =>
      intro best hq
      rw [List.foldl_cons]
      apply ih
      simp only [fuzzyInnerStep]
      by_cases hg : (Frac.blt best.1 (calculate_similarity ratio (pyLower column) (pyLower v)) &&
          Frac.blt frac07 (calculate_similarity ratio (pyLower column) (pyLower v))) = true
      · rw [if_pos hg]
        intro g hg2
        replace hg2 : some fname = some g := hg2
        injection hg2 with hg2
        subst hg2
        simp only [Bool.and_eq_true] at hg
        exact ⟨h1, h2, hg.2, fun hbnd =>
          calculate_similarity_le_one ratio hbnd (pyLower column) (pyLower v)⟩
      · rw [if_neg hg]
        exact hq

theorem fuzzyOuter_inv (ratio : Str → Str → Frac) (column : Str)
    (existing : List (Str × Str)) :
    ∀ (l : List (Str × List Str)),
      (∀ fv ∈ l, fv.1 ∈ standardVariants.map (fun p => p.1)) →
      ∀ best, fbQ ratio existing best →
        fbQ ratio existing (l.foldl (fuzzyOuterStep ratio column existing) best) := by
  intro l
  induction l with
  | nil =>
      intro _ best hq
      exact hq
  | cons fv fvs ih =>
      intro hl best hq
      rw [List.foldl_cons]
      apply ih (fun x hx => hl x (List.mem_cons_of_mem _ hx))
      rw [fuzzyOuterStep]
      by_cases hc : dContainsKey existing fv.1 = true
      · rw [if_pos hc]
        exact hq
      · have hc' : dContainsKey existing fv.1 = false := bool_eq_false_of_ne_true hc
        rw [if_neg hc]
        exact fuzzyInner_inv ratio column existing fv.1 hc'
          (hl fv (List.mem_cons_self _ _)) fv.2 best hq

theorem find_best_fuzzy_match_spec (ratio : Str → Str → Frac) (column : Str)
    (existing : List (Str × Str)) (f : Str) (s : Frac)
    (h : find_best_fuzzy_match ratio column existing = some (f, s)) :
    dContainsKey existing f = false ∧ f ∈ standardVariants.map (fun p => p.1) ∧
    Frac.blt frac07 s = true ∧
    ((∀ a b, Frac.ble (ratio a b) frac1 = true) → Frac.ble s frac1 = true) := by
  rw [find_best_fuzzy_match_eq] at h
  have hq : fbQ ratio existing (standardVariants.foldl
      (fuzzyOuterStep ratio column existing) (frac0, (none : Option Str))) :=
    fuzzyOuter_inv ratio column existing standardVariants
      (fun fv hfv => List.mem_map_of_mem _ hfv) (frac0, none)
      (fun g hg => absurd hg (by simp))
  rcases hres : (standardVariants.foldl (fuzzyOuterStep ratio column existing)
      (frac0, (none : Option Str))).2 with _ | g
  · rw [hres] at h
    exact absurd h (by simp)
  · rw [hres] at h
    replace h : some (g, (standardVariants.foldl (fuzzyOuterStep ratio column existing)
        (frac0, (none : Option Str))).1) = some (f, s) := h
    injection h with h1
    rw [Prod.mk.injEq] at h1
    obtain ⟨hgf, hs⟩ := h1
    obtain ⟨q1, q2, q3, q4⟩ := hq g hres
    subst hgf
    rw [hs] at q3 q4
    exact ⟨q1, q2, q3, q4⟩

/-- One step of the `_fuzzy_match` loop. -/
def fuzzyStep (ratio : Str → Str → Frac) (existing : List (Str × Str))
    (acc : List (Str × Str) × List (Str × Frac)) (col : Str) :
    List (Str × Str) × List (Str × Frac) :=
  match find_best_fuzzy_match ratio col existing with
  | some fc => (dinsert acc.1 fc.1 col, dinsert acc.2 col fc.2)
  | none => acc

theorem fuzzy_match_eq_foldl (ratio : Str → Str → Frac) (unmapped : List Str)
    (existing : List (Str × Str)) :
    fuzzy_match ratio unmapped existing =
      unmapped.foldl (fuzzyStep ratio existing) ([], []) := rfl

/-- Invariant of the `_fuzzy_match` accumulator. -/
def fuzzyInv (ratio : Str → Str → Frac) (existing : List (Str × Str))
    (acc : List (Str × Str) × List (Str × Frac)) : Prop :=
  dNodupKeys acc.1 ∧ dNodupKeys acc.2 ∧
  (∀ f, dContainsKey acc.1 f = true →
    dContainsKey existing f = false ∧ f ∈ standardVariants.map (fun p => p.1)) ∧
  (∀ col v, dget acc.2 col = some v → Frac.blt frac07 v = true ∧
    ((∀ a b, Frac.ble (ratio a b) frac1 = true) → Frac.ble v frac1 = true)) ∧
  (∀ col, col ∈ dvalues acc.1 → dContainsKey acc.2 col = true)

theorem fuzzyStep_inv (ratio : Str → Str → Frac) (existing : List (Str × Str))
    (acc : List (Str × Str) × List (Str × Frac)) (col : Str)
    (hinv : fuzzyInv ratio existing acc) :
    fuzzyInv ratio existing (fuzzyStep ratio existing acc col) ∧
    (∀ c, dContainsKey (fuzzyStep ratio existing acc col).2 c = true →
      dContainsKey acc.2 c = true ∨ c = col) := by
  obtain ⟨hn1, hn2, hkeys, hconf, hval⟩ := hinv
  rcases hfb : find_best_fuzzy_match ratio col existing with _ | fc
  · simp only [fuzzyStep, hfb]
    exact ⟨⟨hn1, hn2, hkeys, hconf, hval⟩, fun c hc => Or.inl hc⟩
  · obtain ⟨q1, q2, q3, q4⟩ :=
      find_best_fuzzy_match_spec ratio col existing fc.1 fc.2 (by rw [hfb])
    simp only [fuzzyStep, hfb]
    constructor
    · refine ⟨dNodupKeys_dinsert hn1 fc.1 col, dNodupKeys_dinsert hn2 col fc.2, ?_, ?_, ?_⟩
      · intro f hf
        rw [dContainsKey_dinsert] at hf
        rcases Bool.or_eq_true_iff.mp hf with hcase | hcase
        · rw [decide_eq_true_eq] at hcase
          exact hcase ▸ ⟨q1, q2⟩
        · exact hkeys f hcase
      · intro c v hv
        rw [dget_dinsert] at hv
        by_cases hcc : c = col
        · rw [if_pos hcc] at hv
          injection hv with hv
          exact hv ▸ ⟨q3, q4⟩
        · rw [if_neg hcc] at hv
          exact hconf c v hv
      · intro c hcmem
        rcases dvalues_dinsert acc.1 fc.1 col c hcmem with hcase | hcase
        · rw [hcase, dContainsKey_dinsert]
          simp
        · rw [dContainsKey_dinsert, hval c hcase]
          simp
    · intro c hc
      rw [dContainsKey_dinsert] at hc
      rcases Bool.or_eq_true_iff.mp hc with hcase | hcase
      · exact Or.inr (by rwa [decide_eq_true_eq] at hcase)
      · exact Or.inl hcase

theorem fuzzy_fold_inv (ratio : Str → Str → Frac) (existing : List (Str × Str)) :
    ∀ (l : List Str) (acc : List (Str × Str) × List (Str × Frac)),
      fuzzyInv ratio existing acc →
      fuzzyInv ratio existing (l.foldl (fuzzyStep ratio existing) acc) ∧
      (∀ c, dContainsKey (l.foldl (fuzzyStep ratio existing) acc).2 c = true →
        dContainsKey acc.2 c = true ∨ c ∈ l) := by
  intro l
  induction l with
  | nil =>
      intro acc hinv
      exact ⟨hinv, fun c hc => Or.inl hc⟩
  | cons c0 cs ih =>
      intro acc hinv
      rw [List.foldl_cons]
      obtain ⟨hstep, hrel0⟩ := fuzzyStep_inv ratio existing acc c0 hinv
      obtain ⟨hind, hrel⟩ := ih (fuzzyStep ratio existing acc c0) hstep
      refine ⟨hind, ?_⟩
      intro c hc
      rcases hrel c hc with h | h
      · rcases hrel0 c h with h1 | h1
        · exact Or.inl h1
        · exact Or.inr (h1 ▸ List.mem_cons_self _ _)
      · exact Or.inr (List.mem_cons_of_mem _ h)

theorem fuzzy_match_spec (ratio : Str → Str → Frac) (unmapped : List Str)
    (existing : List (Str × Str)) :
    fuzzyInv ratio existing (fuzzy_match ratio unmapped existing) ∧
    (∀ c, dContainsKey (fuzzy_match ratio unmapped existing).2 c = true →
      c ∈ unmapped) := by
  rw [fuzzy_match_eq_foldl]
  have hbase : fuzzyInv ratio existing ([], []) := by
    refine ⟨dNodupKeys_nil, dNodupKeys_nil, ?_, ?_, ?_⟩
    · intro f hf
      exact absurd hf Bool.false_ne_true
    · intro c v hv
      exact absurd hv (by simp [dget_nil])
    · intro c hc
      exact absurd hc (by simp [dvalues])
  obtain ⟨hi, hr⟩ := fuzzy_fold_inv ratio existing unmapped ([], []) hbase
  refine ⟨hi, ?_⟩
  intro c hc
  rcases hr c hc with h | h
  · exact absurd h Bool.false_ne_true
  · exact h

/-! ## The exact pass and the assembled result -/

/-- One step of `_exact_match`. -/
def exactStep (cols : List Str) (mapping : List (Str × Str)) (fv : Str × List Str) :
    List (Str × Str) :=
  match fv.2.find? (fun v => dContainsKey (actualColumnsLower cols) (pyLower v)) with
  | some v => dinsert mapping fv.1 ((dget (actualColumnsLower cols) (pyLower v)).getD [])
  | none => mapping

theorem exact_match_eq_foldl (cols : List Str) :
    exact_match cols = standardVariants.foldl (exactStep cols) [] := rfl

theorem exactStep_keys (cols : List Str) (mapping : List (Str × Str))
    (fv : Str × List Str)
    (hm : ∀ f, dContainsKey mapping f = true → f ∈ standardVariants.map (fun p => p.1))
    (hfv : fv.1 ∈ standardVariants.map (fun p => p.1)) :
    ∀ f, dContainsKey (exactStep cols mapping fv) f = true →
      f ∈ standardVariants.map (fun p => p.1) := by
  intro f hf
  rcases hfind : fv.2.find? (fun v => dContainsKey (actualColumnsLower cols) (pyLower v))
    with _ | v
  · simp only [exactStep, hfind] at hf
    exact hm f hf
  · simp only [exactStep, hfind] at hf
    rw [dContainsKey_dinsert] at hf
    rcases Bool.or_eq_true_iff.mp hf with h | h
    · rw [decide_eq_true_eq] at h
      exact h ▸ hfv
    · exact hm f h

theorem exact_match_keys (cols : List Str) :
    ∀ f, dContainsKey (exact_match cols) f = true →
      f ∈ standardVariants.map (fun p => p.1) := by
  rw [exact_match_eq_foldl]
  have haux : ∀ (l : List (Str × List Str)),
      (∀ fv ∈ l, fv.1 ∈ standardVariants.map (fun p => p.1)) →
      ∀ mapping, (∀ f, dContainsKey mapping f = true →
          f ∈ standardVariants.map (fun p => p.1)) →
      ∀ f, dContainsKey (l.foldl (exactStep cols) mapping) f = true →
        f ∈ standardVariants.map (fun p => p.1) := by
    intro l
    induction l with
    | nil =>
        intro _ mapping hm
        exact hm
    | cons fv fvs ih =>
        intro hl mapping hm
        rw [List.foldl_cons]
        exact ih (fun x hx => hl x (List.mem_cons_of_mem _ hx)) _
          (exactStep_keys cols mapping fv hm (hl fv (List.mem_cons_self _ _)))
  exact haux standardVariants (fun fv hfv => List.mem_map_of_mem _ hfv) []
    (fun f hf => absurd hf Bool.false_ne_true)

theorem conf1_fold_inv (l : List (Str × Str)) :
    ∀ acc : List (Str × Frac), dNodupKeys acc → (∀ c v, dget acc c = some v → v = frac1) →
      dNodupKeys (l.foldl (fun acc p => dinsert acc p.2 frac1) acc) ∧
      (∀ c v, dget (l.foldl (fun acc p => dinsert acc p.2 frac1) acc) c = some v →
        v = frac1) ∧
      (∀ c, dContainsKey (l.foldl (fun acc p => dinsert acc p.2 frac1) acc) c = true ↔
        (dContainsKey acc c = true ∨ c ∈ l.map (fun p => p.2))) := by
  induction l with
  | nil =>
      intro acc h1 h2
      refine ⟨h1, h2, ?_⟩
      intro c
      constructor
      · intro h
        exact Or.inl h
      · intro h
        rcases h with h | h
        · exact h
        · exact absurd h (by simp)
  | cons p ps ih =>
      intro acc h1 h2
      rw [List.foldl_cons]
      obtain ⟨g1, g2, g3⟩ := ih (dinsert acc p.2 frac1) (dNodupKeys_dinsert h1 p.2 frac1)
        (by
          intro c v hv
          rw [dget_dinsert] at hv
          by_cases hcc : c = p.2
          · rw [if_pos hcc] at hv
            injection hv with hv
            exact hv.symm
          · rw [if_neg hcc] at hv
            exact h2 c v hv)
      refine ⟨g1, g2, ?_⟩
      intro c
      rw [g3 c, dContainsKey_dinsert, List.map_cons, List.mem_cons]
      simp only [Bool.or_eq_true, decide_eq_true_eq]
      tauto

/-- The exact-pass confidence dict built by `analyze_columns` step 5. -/
def exactConfs (cols : List Str) : List (Str × Frac) :=
  (exact_match cols).foldl (fun acc p => dinsert acc p.2 frac1) []

theorem confidence_scores_eq (ratio : Str → Str → Frac)
    (sniff : Str → Option ContentScores) (cols : List Str) :
    confidence_scores ratio sniff cols =
      dupdate (dupdate (exactConfs cols) (fuzzyPass ratio cols).2)
        (contentPass ratio sniff cols).2 := rfl

theorem exactConfs_spec (cols : List Str) :
    dNodupKeys (exactConfs cols) ∧
    (∀ c v, dget (exactConfs cols) c = some v → v = frac1) ∧
    (∀ c, dContainsKey (exactConfs cols) c = true ↔ c ∈ dvalues (exact_match cols)) := by
  obtain ⟨g1, g2, g3⟩ := conf1_fold_inv (exact_match cols) [] dNodupKeys_nil
    (fun c v hv => absurd hv (by simp [dget_nil]))
  refine ⟨g1, g2, ?_⟩
  intro c
  refine ⟨fun h => ?_, fun h => (g3 c).mpr (Or.inr h)⟩
  rcases (g3 c).mp h with hcase | hcase
  · exact absurd hcase Bool.false_ne_true
  · exact hcase

theorem detectedNames_not_std :
    ∀ f ∈ detectedNames, f ∉ standardVariants.map (fun p => p.1) := by decide

theorem mem_unmappedColumns_iff (cols : List Str) (c : Str) :
    c ∈ unmappedColumns cols ↔ c ∈ cols ∧ c ∉ dvalues (exact_match cols) := by
  rw [unmappedColumns]
  simp [List.mem_filter]

theorem mem_remainingUnmapped_iff (ratio : Str → Str → Frac) (cols : List Str) (c : Str) :
    c ∈ remainingUnmapped ratio cols ↔
      c ∈ unmappedColumns cols ∧ c ∉ dvalues (fuzzyPass ratio cols).1 := by
  rw [remainingUnmapped]
  simp [List.mem_filter]

theorem fuzzyPass_spec (ratio : Str → Str → Frac) (cols : List Str) :
    fuzzyInv ratio (exact_match cols) (fuzzyPass ratio cols) ∧
    (∀ c, dContainsKey (fuzzyPass ratio cols).2 c = true → c ∈ unmappedColumns cols) :=
  fuzzy_match_spec ratio (unmappedColumns cols) (exact_match cols)

theorem contentPass_spec (ratio : Str → Str → Frac)
    (sniff : Str → Option ContentScores) (cols : List Str) :
    contentInv (contentPass ratio sniff cols) ∧
    (∀ c, dContainsKey (contentPass ratio sniff cols).2 c = true →
      c ∈ remainingUnmapped ratio cols) :=
  content_analysis_spec sniff (remainingUnmapped ratio cols) (exact_match cols)

/-! ## Claims C3, C4 and C10 -/

/-- **C3.** In `analyze_columns`, later passes only fill canonical fields the
earlier passes left unmapped: the final mapping returns the exact pass's entry
for every field the exact pass mapped, the fuzzy pass's entry for every field
only the fuzzy pass mapped, the content pass's entry for every field only it
mapped, and it holds exactly the fields some pass mapped. -/
theorem claim_C3_pass_priority (ratio : Str → Str → Frac)
    (sniff : Str → Option ContentScores) (cols : List Str) (f : Str) :
    (dContainsKey (exact_match cols) f = true →
      dget (final_mapping ratio sniff cols) f = dget (exact_match cols) f) ∧
    (dContainsKey (exact_match cols) f = false →
      dContainsKey (fuzzyPass ratio cols).1 f = true →
      dget (final_mapping ratio sniff cols) f = dget (fuzzyPass ratio cols).1 f) ∧
    (dContainsKey (exact_match cols) f = false →
      dContainsKey (fuzzyPass ratio cols).1 f = false →
      dContainsKey (contentPass ratio sniff cols).1 f = true →
      dget (final_mapping ratio sniff cols) f = dget (contentPass ratio sniff cols).1 f) ∧
    (dContainsKey (final_mapping ratio sniff cols) f = true ↔
      (dContainsKey (exact_match cols) f = true ∨
       dContainsKey (fuzzyPass ratio cols).1 f = true ∨
       dContainsKey (contentPass ratio sniff cols).1 f = true)) := by
  obtain ⟨⟨fn1, fn2, fkeys, fconf, fval⟩, hfu⟩ := fuzzyPass_spec ratio cols
  obtain ⟨⟨cn1, cn2, cdet, cpc, cconf, cval⟩, hcu⟩ := contentPass_spec ratio sniff cols
  have hfinal : ∀ q, dget (final_mapping ratio sniff cols) q =
      if dContainsKey (contentPass ratio sniff cols).1 q then
        dget (contentPass ratio sniff cols).1 q
      else if dContainsKey (fuzzyPass ratio cols).1 q then
        dget (fuzzyPass ratio cols).1 q
      else dget (exact_match cols) q := by
    intro q
    rw [final_mapping, dget_dupdate _ _ cn1 q]
    by_cases h1 : dContainsKey (contentPass ratio sniff cols).1 q = true
    · rw [if_pos h1, if_pos h1]
    · rw [if_neg h1, if_neg h1, dget_dupdate _ _ fn1 q]
  refine ⟨?_, ?_, ?_, ?_⟩
  · intro hex
    have hfz : dContainsKey (fuzzyPass ratio cols).1 f = false := by
      by_cases h : dContainsKey (fuzzyPass ratio cols).1 f = true
      · exact absurd hex (ne_true_of_eq_false (fkeys f h).1)
      · exact bool_eq_false_of_ne_true h
    have hct : dContainsKey (contentPass ratio sniff cols).1 f = false := by
      by_cases h : dContainsKey (contentPass ratio sniff cols).1 f = true
      · exact absurd (exact_match_keys cols f hex) (detectedNames_not_std f (cdet f h))
      · exact bool_eq_false_of_ne_true h
    rw [hfinal f, if_neg (ne_true_of_eq_false hct), if_neg (ne_true_of_eq_false hfz)]
  · intro hex hfz
    have hct : dContainsKey (contentPass ratio sniff cols).1 f = false := by
      by_cases h : dContainsKey (contentPass ratio sniff cols).1 f = true
      · exact absurd (fkeys f hfz).2 (detectedNames_not_std f (cdet f h))
      · exact bool_eq_false_of_ne_true h
    rw [hfinal f, if_neg (ne_true_of_eq_false hct), if_pos hfz]
  · intro _ _ hct
    rw [hfinal f, if_pos hct]
  · rw [final_mapping, dContainsKey_dupdate, dContainsKey_dupdate]
    simp only [Bool.or_eq_true]
    tauto

/-- **C4 (amended).** Every confidence the mapper returns comes from the pass
that produced it: exactly matched columns get 1.0, fuzzy confidences lie in
(0.7, 1] whenever the ratio function is bounded by 1, and content confidences
are 0.7 or 0.8. -/
theorem claim_C4_confidences (ratio : Str → Str → Frac)
    (sniff : Str → Option ContentScores) (cols : List Str)
    (hb : ∀ a b, Frac.ble (ratio a b) frac1 = true) (col : Str) (c : Frac)
    (hc : dget (confidence_scores ratio sniff cols) col = some c) :
    (col ∈ dvalues (exact_match cols) → c = frac1) ∧
    (dContainsKey (contentPass ratio sniff cols).2 col = true →
      c = frac07 ∨ c = frac08) ∧
    (dContainsKey (fuzzyPass ratio cols).2 col = true →
      dContainsKey (contentPass ratio sniff cols).2 col = false →
      Frac.blt frac07 c = true ∧ Frac.ble c frac1 = true) ∧
    (col ∈ dvalues (exact_match cols) ∨ dContainsKey (fuzzyPass ratio cols).2 col = true ∨
      dContainsKey (contentPass ratio sniff cols).2 col = true) := by
  obtain ⟨⟨fn1, fn2, fkeys, fconf, fval⟩, hfu⟩ := fuzzyPass_spec ratio cols
  obtain ⟨⟨cn1, cn2, cdet, cpc, cconf, cval⟩, hcu⟩ := contentPass_spec ratio sniff cols
  obtain ⟨e1, e2, e3⟩ := exactConfs_spec cols
  rw [confidence_scores_eq, dget_dupdate _ _ cn2 col] at hc
  refine ⟨?_, ?_, ?_, ?_⟩
  · intro hexv
    have hct : dContainsKey (contentPass ratio sniff cols).2 col = false := by
      by_cases h : dContainsKey (contentPass ratio sniff cols).2 col = true
      · exact absurd hexv
          (((mem_unmappedColumns_iff cols col).mp
            ((mem_remainingUnmapped_iff ratio cols col).mp (hcu col h)).1).2)
      · exact bool_eq_false_of_ne_true h
    have hfz : dContainsKey (fuzzyPass ratio cols).2 col = false := by
      by_cases h : dContainsKey (fuzzyPass ratio cols).2 col = true
      · exact absurd hexv ((mem_unmappedColumns_iff cols col).mp (hfu col h)).2
      · exact bool_eq_false_of_ne_true h
    rw [if_neg (ne_true_of_eq_false hct), dget_dupdate _ _ fn2 col,
      if_neg (ne_true_of_eq_false hfz)] at hc
    exact e2 col c hc
  · intro h
    rw [if_pos h] at hc
    exact cconf col c hc
  · intro hf hct
    rw [if_neg (ne_true_of_eq_false hct), dget_dupdate _ _ fn2 col, if_pos hf] at hc
    obtain ⟨q1, q2⟩ := fconf col c hc
    exact ⟨q1, q2 hb⟩
  · by_cases h1 : dContainsKey (contentPass ratio sniff cols).2 col = true
    · exact Or.inr (Or.inr h1)
    · by_cases h2 : dContainsKey (fuzzyPass ratio cols).2 col = true
      · exact Or.inr (Or.inl h2)
      · rw [if_neg h1, dget_dupdate _ _ fn2 col, if_neg h2] at hc
        refine Or.inl ((e3 col).mp ?_)
        rw [dContainsKey_iff_dget]
        exact ⟨c, hc⟩

/-- **C10.** The content pass never maps `product category`: category
detection carries the fixed confidence 0.6, acceptance needs strictly more
than 0.6, and every content confidence (also as returned in the final
confidence dict) is 0.7 or 0.8. -/
theorem claim_C10_category_never_content (ratio : Str → Str → Frac)
    (sniff : Str → Option ContentScores) (cols : List Str) :
    dContainsKey (contentPass ratio sniff cols).1 (("product category").data) = false ∧
    (∀ sc conf, detect_column_type sc = (some (("product category").data), conf) →
      conf = frac06) ∧
    (∀ col c, dget (contentPass ratio sniff cols).2 col = some c →
      c = frac07 ∨ c = frac08) ∧
    (∀ col c, dContainsKey (contentPass ratio sniff cols).2 col = true →
      dget (confidence_scores ratio sniff cols) col = some c →
      c = frac07 ∨ c = frac08) := by
  obtain ⟨⟨cn1, cn2, cdet, cpc, cconf, cval⟩, hcu⟩ := contentPass_spec ratio sniff cols
  refine ⟨cpc, ?_, cconf, ?_⟩
  · intro sc conf h
    exact (detect_column_type_spec sc _ conf h).2.2 rfl
  · intro col c hck hgc
    rw [confidence_scores_eq, dget_dupdate _ _ cn2 col, if_pos hck] at hgc
    exact cconf col c hgc

/-! ## Concrete runs of the mapper

`ratioZero` is the least informative similarity oracle (constantly 0, so
only the substring floor of `_calculate_similarity` can fire); `sniffNone`
and `sniffPrice` are content oracles for a table with no sniffable data and
for one whose every column looks like a price column. The staged lemmas
evaluate the pipeline one phase at a time on the one-column tables
`["ti_tle"]` and `["qqq"]`. -/

def ratioZero : Str → Str → Frac := fun _ _ => frac0

def sniffNone : Str → Option ContentScores := fun _ => none

def sniffPrice : Str → Option ContentScores :=
  fun _ => some ⟨frac08, frac0, frac0, frac0, frac0, frac0⟩

theorem foldl_chunk3 {α β : Type} (f : α → β → α) (l : List β) (init a1 a2 a3 : α)
    (h1 : List.foldl f init (l.take 20) = a1)
    (h2 : List.foldl f a1 ((l.drop 20).take 20) = a2)
    (h3 : List.foldl f a2 ((l.drop 20).drop 20) = a3) :
    List.foldl f init l = a3 := by
  rw [← List.take_append_drop 20 l, List.foldl_append, h1,
    ← List.take_append_drop 20 (l.drop 20), List.foldl_append, h2, h3]

theorem stage_exactT : exact_match [("ti_tle").data] = [] := by decide

theorem stage_unmappedT : unmappedColumns [("ti_tle").data] = [("ti_tle").data] := by
  rw [unmappedColumns, stage_exactT]
  decide

theorem stage_fbZ : find_best_fuzzy_match ratioZero (("ti_tle").data) [] =
    some ((("Title").data), frac08) := by
  rw [find_best_fuzzy_match_eq,
    foldl_chunk3 (fuzzyOuterStep ratioZero (("ti_tle").data) []) standardVariants
      (frac0, (none : Option Str)) (frac08, some (("Title").data))
      (frac08, some (("Title").data)) (frac08, some (("Title").data))
      (by decide) (by decide) (by decide)]

theorem stage_fuzzyZ : fuzzyPass ratioZero [("ti_tle").data] =
    ([((("Title").data), ("ti_tle").data)], [(("ti_tle").data, frac08)]) := by
  rw [fuzzyPass, stage_unmappedT, stage_exactT, fuzzy_match_eq_foldl,
    List.foldl_cons, List.foldl_nil, fuzzyStep, stage_fbZ]
  decide

theorem stage_remZ : remainingUnmapped ratioZero [("ti_tle").data] = [] := by
  rw [remainingUnmapped, stage_unmappedT, stage_fuzzyZ]
  decide

theorem stage_contentZ : contentPass ratioZero sniffNone [("ti_tle").data] = ([], []) := by
  rw [contentPass, stage_remZ, stage_exactT]
  decide

theorem stage_finalZ : final_mapping ratioZero sniffNone [("ti_tle").data] =
    [((("Title").data), ("ti_tle").data)] := by
  rw [final_mapping, stage_exactT, stage_fuzzyZ, stage_contentZ]
  decide

theorem stage_confZ : confidence_scores ratioZero sniffNone [("ti_tle").data] =
    [(("ti_tle").data, frac08)] := by
  rw [confidence_scores_eq, stage_fuzzyZ, stage_contentZ, exactConfs, stage_exactT]
  decide

theorem stage_fbD : find_best_fuzzy_match difflibRatio (("ti_tle").data) [] =
    some ((("Title").data), ⟨10, 10, by decide⟩) := by
  rw [find_best_fuzzy_match_eq,
    foldl_chunk3 (fuzzyOuterStep difflibRatio (("ti_tle").data) []) standardVariants
      (frac0, (none : Option Str)) (⟨10, 10, by decide⟩, some (("Title").data))
      (⟨10, 10, by decide⟩, some (("Title").data)) (⟨10, 10, by decide⟩, some (("Title").data))
      (by decide) (by decide) (by decide)]

theorem stage_fuzzyD : fuzzyPass difflibRatio [("ti_tle").data] =
    ([((("Title").data), ("ti_tle").data)], [(("ti_tle").data, ⟨10, 10, by decide⟩)]) := by
  rw [fuzzyPass, stage_unmappedT, stage_exactT, fuzzy_match_eq_foldl,
    List.foldl_cons, List.foldl_nil, fuzzyStep, stage_fbD]
  decide

theorem stage_remD : remainingUnmapped difflibRatio [("ti_tle").data] = [] := by
  rw [remainingUnmapped, stage_unmappedT, stage_fuzzyD]
  decide

theorem stage_contentD : contentPass difflibRatio sniffNone [("ti_tle").data] = ([], []) := by
  rw [contentPass, stage_remD, stage_exactT]
  decide

theorem stage_confD : confidence_scores difflibRatio sniffNone [("ti_tle").data] =
    [(("ti_tle").data, ⟨10, 10, by decide⟩)] := by
  rw [confidence_scores_eq, stage_fuzzyD, stage_contentD, exactConfs, stage_exactT]
  decide

theorem stage_exactQ : exact_match [("qqq").data] = [] := by decide

theorem stage_unmappedQ : unmappedColumns [("qqq").data] = [("qqq").data] := by
  rw [unmappedColumns, stage_exactQ]
  decide

theorem stage_fbQ0 : find_best_fuzzy_match ratioZero (("qqq").data) [] = none := by
  rw [find_best_fuzzy_match_eq,
    foldl_chunk3 (fuzzyOuterStep ratioZero (("qqq").data) []) standardVariants
      (frac0, (none : Option Str)) (frac0, (none : Option Str))
      (frac0, (none : Option Str)) (frac0, (none : Option Str))
      (by decide) (by decide) (by decide)]

theorem stage_fuzzyQ : fuzzyPass ratioZero [("qqq").data] = ([], []) := by
  rw [fuzzyPass, stage_unmappedQ, stage_exactQ, fuzzy_match_eq_foldl,
    List.foldl_cons, List.foldl_nil, fuzzyStep, stage_fbQ0]

theorem stage_remQ : remainingUnmapped ratioZero [("qqq").data] = [("qqq").data] := by
  rw [remainingUnmapped, stage_unmappedQ, stage_fuzzyQ]
  decide

theorem stage_contentQ : contentPass ratioZero sniffPrice [("qqq").data] =
    ([((("variant price").data), ("qqq").data)], [(("qqq").data, frac08)]) := by
  rw [contentPass, stage_remQ, stage_exactQ]
  decide

theorem stage_confQ : confidence_scores ratioZero sniffPrice [("qqq").data] =
    [(("qqq").data, frac08)] := by
  rw [confidence_scores_eq, stage_fuzzyQ, stage_contentQ, exactConfs, stage_exactQ]
  decide

/-- C3 witness: on the table `["ti_tle"]` the exact pass misses `Title`, the
fuzzy pass maps it, and the final mapping returns the fuzzy entry. -/
theorem claim_C3_pass_priority_witness :
    dContainsKey (exact_match [("ti_tle").data]) (("Title").data) = false ∧
    dContainsKey (fuzzyPass ratioZero [("ti_tle").data]).1 (("Title").data) = true ∧
    dget (final_mapping ratioZero sniffNone [("ti_tle").data]) (("Title").data) =
      dget (fuzzyPass ratioZero [("ti_tle").data]).1 (("Title").data) := by
  have h1 : dContainsKey (exact_match [("ti_tle").data]) (("Title").data) = false := by
    rw [stage_exactT]
    rfl
  have h2 : dContainsKey (fuzzyPass ratioZero [("ti_tle").data]).1 (("Title").data) = true := by
    rw [stage_fuzzyZ]
    decide
  exact ⟨h1, h2,
    (claim_C3_pass_priority ratioZero sniffNone [("ti_tle").data] (("Title").data)).2.1 h1 h2⟩

/-- C4 witness: on the table `["ti_tle"]` with the constantly-0 ratio the
column is fuzzy-mapped with confidence 0.8, which lies in (0.7, 1]. -/
theorem claim_C4_confidences_witness :
    dget (confidence_scores ratioZero sniffNone [("ti_tle").data]) (("ti_tle").data) =
      some frac08 ∧
    dContainsKey (fuzzyPass ratioZero [("ti_tle").data]).2 (("ti_tle").data) = true ∧
    dContainsKey (contentPass ratioZero sniffNone [("ti_tle").data]).2 (("ti_tle").data) =
      false ∧
    (Frac.blt frac07 frac08 = true ∧ Frac.ble frac08 frac1 = true) := by
  have hb : ∀ a b, Frac.ble (ratioZero a b) frac1 = true := fun _ _ => rfl
  have hc : dget (confidence_scores ratioZero sniffNone [("ti_tle").data])
      (("ti_tle").data) = some frac08 := by
    rw [stage_confZ]
    decide
  have h2 : dContainsKey (fuzzyPass ratioZero [("ti_tle").data]).2 (("ti_tle").data) = true := by
    rw [stage_fuzzyZ]
    decide
  have h3 : dContainsKey (contentPass ratioZero sniffNone [("ti_tle").data]).2
      (("ti_tle").data) = false := by
    rw [stage_contentZ]
    rfl
  exact ⟨hc, h2, h3, (claim_C4_confidences ratioZero sniffNone [("ti_tle").data] hb
    (("ti_tle").data) frac08 hc).2.2.1 h2 h3⟩

/-- C4 counterexample: with the real `SequenceMatcher.ratio` the column
`ti_tle` cleans to exactly the accepted spelling `title`, so the fuzzy pass
records similarity 10/10 = 1.0 — the fuzzy confidence is not strictly below
1.0 as claimed. -/
theorem claim_C4_counterexample :
    dContainsKey (fuzzyPass difflibRatio [("ti_tle").data]).2 (("ti_tle").data) = true ∧
    dget (confidence_scores difflibRatio sniffNone [("ti_tle").data]) (("ti_tle").data) =
      some ⟨10, 10, by decide⟩ ∧
    Frac.blt (⟨10, 10, by decide⟩ : Frac) frac1 = false ∧
    (⟨10, 10, by decide⟩ : Frac).toRat = 1 := by
  refine ⟨?_, ?_, by decide, by norm_num [Frac.toRat]⟩
  · rw [stage_fuzzyD]
    decide
  · rw [stage_confD]
    decide

/-- C10 witness: a table whose single column `qqq` sniffs as a price column
gets the content mapping `variant price ↦ qqq` with confidence 0.8; the
content pass never maps `product category`. -/
theorem claim_C10_category_never_content_witness :
    dContainsKey (contentPass ratioZero sniffPrice [("qqq").data]).1
      (("product category").data) = false ∧
    (frac08 = frac07 ∨ frac08 = frac08) := by
  have hth := claim_C10_category_never_content ratioZero sniffPrice [("qqq").data]
  exact ⟨hth.1, hth.2.2.2 (("qqq").data) frac08
    (by rw [stage_contentQ]; decide) (by rw [stage_confQ]; decide)⟩

/-! ## Description rendering

Embeddings of `DescriptionGenerator._generate_dynamic_description` /
`_clean_value_no_decimals` (description_generator.py) and
`WorkflowManager._generate_description_html` / `_clean_value`
(workflow_manager.py). A row cell is either missing (`NaN`) or a string. -/

inductive PyCell : Type where
  | na : PyCell
  | pstr (s : Str) : PyCell
deriving DecidableEq

/-- Python `str(value)` on such a cell (`str(float('nan')) = "nan"`). -/
def pyCellStr : PyCell → Str
  | .na => ("nan").data
  | .pstr s => s

/-- `pd.isna` on such a cell. -/
def pyIsNa : PyCell → Bool
  | .na => true
  | .pstr _ => false

/-- Python `" ".join(parts)`. -/
def joinSpace : List Str → Str
  | [] => []
  | [p] => p
  | p :: q :: qs => p ++ ' ' :: joinSpace (q :: qs)

/-- Decimal digits of a natural number. -/
def natToStr (n : Nat) : Str := Nat.toDigits 10 n

/-- Python `str` of an int. -/
def intToStr (i : Int) : Str :=
  if i < 0 then '-' :: natToStr i.natAbs else natToStr i.natAbs

/-- Embedding of `WorkflowManager._clean_value` (workflow_manager.py lines
275-280): `""` for NaN or blank, the stripped string otherwise. -/
def clean_value (value : PyCell) : Str :=
  if pyIsNa value then []
  else if pyStrip (pyCellStr value) = [] then []
  else pyStrip (pyCellStr value)

/-- The `integer_fields` list of `_clean_value_no_decimals`. -/
def integer_fields : List Str :=
  [("no of components").data, ("components").data, ("number_of_components").data,
   ("component_count").data, ("quantity").data, ("qty").data, ("count").data,
   ("pieces").data, ("set").data, ("items").data, ("number").data, ("no").data]

/-- Embedding of `DescriptionGenerator._clean_value_no_decimals`
(description_generator.py lines 78-104). `int()` of an infinite float raises
OverflowError, which the local `except (ValueError, TypeError)` does not
catch; `int()` of NaN raises ValueError, which it does. -/
def clean_value_no_decimals (value : PyCell) (column_name : Str) : Except PyErr Str :=
  if pyIsNa value then .ok []
  else if pyStrip (pyCellStr value) = [] then .ok []
  else
    let sv := pyStrip (pyCellStr value)
    let column_lower := pyLower column_name
    let should_be_integer := integer_fields.any (fun f => strContainsSub column_lower f)
    match pyFloatOfStr sv with
    | none => .ok sv
    | some .nan => .ok sv
    | some (.inf _) => .error .overflowError
    | some (.fin q) =>
        if should_be_integer || Frac.beq q ⟨q.trunc, 1, Nat.one_pos⟩ then
          .ok (intToStr q.trunc)
        else .ok sv

/-- One entry of `st.session_state.description_elements`. -/
structure DescElement : Type where
  column : Str
  label : Str
  html_tag : Str
  order : Int
deriving DecidableEq

/-- The labelled fragment of `_generate_dynamic_description` (lines 51-61):
no special case for `p` — any tag other than none/br/li wraps the label
only, inside an enclosing `<p>`. -/
def fragment_labeled (label html_tag value : Str) : Str :=
  if html_tag = ("none").data then label ++ (": ").data ++ value
  else if html_tag = ("br").data then label ++ (": ").data ++ value ++ ("<br>").data
  else if html_tag = ("li").data then
    ("<li>").data ++ label ++ (": ").data ++ value ++ ("</li>").data
  else
    ("<p><").data ++ html_tag ++ (">").data ++ label ++ (" : </").data ++ html_tag ++
      ("> ").data ++ value ++ ("</p>").data

/-- The unlabelled fragment of `_generate_dynamic_description` (lines 62-71). -/
def fragment_unlabeled (html_tag value : Str) : Str :=
  if html_tag = ("none").data then value
  else if html_tag = ("br").data then value ++ ("<br>").data
  else if html_tag = ("li").data then ("<li>").data ++ value ++ ("</li>").data
  else ("<p><").data ++ html_tag ++ (">").data ++ value ++ ("</").data ++ html_tag ++
    ("></p>").data

/-- The labelled fragment of `_generate_description_html` (workflow_manager.py
lines 244-260), with its explicit `p` branch keeping label and value inside
one `<p>`. -/
def fragment_labeled_wm (label html_tag value : Str) : Str :=
  if html_tag = ("none").data then label ++ (": ").data ++ value
  else if html_tag = ("br").data then label ++ (": ").data ++ value ++ ("<br>").data
  else if html_tag = ("li").data then
    ("<li>").data ++ label ++ (": ").data ++ value ++ ("</li>").data
  else if html_tag = ("p").data then
    ("<p>").data ++ label ++ (": ").data ++ value ++ ("</p>").data
  else
    ("<p><").data ++ html_tag ++ (">").data ++ label ++ (" : </").data ++ html_tag ++
      ("> ").data ++ value ++ ("</p>").data

/-- The unlabelled fragment of `_generate_description_html` (lines 261-272). -/
def fragment_unlabeled_wm (html_tag value : Str) : Str :=
  if html_tag = ("none").data then value
  else if html_tag = ("br").data then value ++ ("<br>").data
  else if html_tag = ("li").data then ("<li>").data ++ value ++ ("</li>").data
  else if html_tag = ("p").data then ("<p>").data ++ value ++ ("</p>").data
  else ("<p><").data ++ html_tag ++ (">").data ++ value ++ ("</").data ++ html_tag ++
    ("></p>").data

/-- The fragments one element contributes in `_generate_dynamic_description`
(an uncaught cleaning exception escapes as `.error`). -/
def dyn_fragments (row : List (Str × PyCell)) (elem : DescElement) :
    Except PyErr (List Str) :=
  if !(decide (elem.column = [])) && dContainsKey row elem.column then
    match clean_value_no_decimals ((dget row elem.column).getD .na) elem.column with
    | .error e => .error e
    | .ok value =>
        if value = [] then .ok []
        else if !(decide (elem.label = [])) && !(decide (pyStrip elem.label = [])) then
          .ok [fragment_labeled elem.label elem.html_tag value]
        else .ok [fragment_unlabeled elem.html_tag value]
  else .ok []

/-- Embedding of `DescriptionGenerator._generate_dynamic_description`
(description_generator.py lines 34-76): drop elements with no column,
stable-sort by order, render each element, join with single spaces; any
exception yields `""`. -/
def generate_dynamic_description (elements : List DescElement)
    (row : List (Str × PyCell)) : Str :=
  let sorted_elements := stableSort (fun a b => decide (a.order < b.order))
    (elements.filter (fun e => !(decide (e.column = []))))
  match sorted_elements.foldl (fun (acc : Except PyErr (List Str)) (e : DescElement) =>
      match acc with
      | .error err => .error err
      | .ok ps =>
          match dyn_fragments row e with
          | .error err => .error err
          | .ok f => .ok (ps ++ f)) (.ok ([] : List Str)) with
  | .error _ => []
  | .ok parts => if parts = [] then [] else joinSpace parts

/-- The fragments one element contributes in `_generate_description_html`. -/
def wm_fragments (row : List (Str × PyCell)) (elem : DescElement) : List Str :=
  if !(decide (elem.column = [])) && dContainsKey row elem.column then
    let value := clean_value ((dget row elem.column).getD .na)
    if value = [] then []
    else if !(decide (elem.label = [])) && !(decide (pyStrip elem.label = [])) then
      [fragment_labeled_wm elem.label elem.html_tag value]
    else [fragment_unlabeled_wm elem.html_tag value]
  else []

/-- Embedding of `WorkflowManager._generate_description_html`
(workflow_manager.py lines 232-273): render the elements in their given
order (no sort, no filter) and join with single spaces. -/
def generate_description_html (elements : List DescElement)
    (row : List (Str × PyCell)) : Str :=
  joinSpace (elements.foldl (fun parts e => parts ++ wm_fragments row e) [])

/-- **C2 (amended).** With a non-blank label and a non-blank resolved value,
the WorkflowManager renderer puts label and value together inside one `<p>`
when the tag is `p` and wraps the label alone for any other tag, while the
DescriptionGenerator renderer (the one applied during CSV generation) has no
`p` special case: it wraps the label alone for every tag outside
none/br/li, including `p`. -/
theorem claim_C2_description_fragments (col label tag : Str) (o : Int)
    (c : PyCell) (v : Str)
    (hcol : col ≠ []) (hl1 : label ≠ []) (hl2 : pyStrip label ≠ []) (hv : v ≠ [])
    (hwv : clean_value c = v) (hdv : clean_value_no_decimals c col = .ok v)
    (ht1 : tag ≠ ("none").data) (ht2 : tag ≠ ("br").data) (ht3 : tag ≠ ("li").data) :
    (tag = ("p").data →
      generate_description_html [⟨col, label, tag, o⟩] [(col, c)] =
        ("<p>").data ++ label ++ (": ").data ++ v ++ ("</p>").data) ∧
    (tag ≠ ("p").data →
      generate_description_html [⟨col, label, tag, o⟩] [(col, c)] =
        ("<p><").data ++ tag ++ (">").data ++ label ++ (" : </").data ++ tag ++
          ("> ").data ++ v ++ ("</p>").data) ∧
    generate_dynamic_description [⟨col, label, tag, o⟩] [(col, c)] =
      ("<p><").data ++ tag ++ (">").data ++ label ++ (" : </").data ++ tag ++
        ("> ").data ++ v ++ ("</p>").data := by
  have hcontains : dContainsKey [(col, c)] col = true := by
    simp [dContainsKey]
  have hget : (dget [(col, c)] col).getD PyCell.na = c := by
    rw [dget_cons_pos rfl]
    rfl
  have hguard : (!(decide (col = [])) && dContainsKey [(col, c)] col) = true := by
    rw [hcontains]
    simp [hcol]
  have hlguard : (!(decide (label = [])) && !(decide (pyStrip label = []))) = true := by
    simp [hl1, hl2]
  have hwm : wm_fragments [(col, c)] ⟨col, label, tag, o⟩ =
      [fragment_labeled_wm label tag v] := by
    simp only [wm_fragments, hguard, hget, hwv, if_true]
    rw [if_neg hv, if_pos hlguard]
  have hwm2 : generate_description_html [⟨col, label, tag, o⟩] [(col, c)] =
      fragment_labeled_wm label tag v := by
    rw [generate_description_html, List.foldl_cons, List.foldl_nil, List.nil_append, hwm]
    rfl
  have hdf : dyn_fragments [(col, c)] ⟨col, label, tag, o⟩ =
      .ok [fragment_labeled label tag v] := by
    simp only [dyn_fragments, hguard, hget, hdv, if_true]
    rw [if_neg hv, if_pos hlguard]
  have hdyn : generate_dynamic_description [⟨col, label, tag, o⟩] [(col, c)] =
      fragment_labeled label tag v := by
    simp only [generate_dynamic_description]
    have hfe : List.filter (fun e => !(decide (e.column = [])))
        [(⟨col, label, tag, o⟩ : DescElement)] = [⟨col, label, tag, o⟩] := by
      simp [hcol]
    rw [hfe]
    have hs : stableSort (fun a b : DescElement => decide (a.order < b.order))
        [(⟨col, label, tag, o⟩ : DescElement)] = [⟨col, label, tag, o⟩] := rfl
    rw [hs, List.foldl_cons, List.foldl_nil]
    simp only [hdf, List.nil_append]
    rw [if_neg (by simp : ¬([fragment_labeled label tag v] = ([] : List Str)))]
    rfl
  refine ⟨?_, ?_, ?_⟩
  · intro hp
    rw [hwm2, fragment_labeled_wm, if_neg ht1, if_neg ht2, if_neg ht3, if_pos hp]
  · intro hp
    rw [hwm2, fragment_labeled_wm, if_neg ht1, if_neg ht2, if_neg ht3, if_neg hp]
  · rw [hdyn, fragment_labeled, if_neg ht1, if_neg ht2, if_neg ht3]

/-- C2 witness: element `{column: fabric, label: Fabric}` with value
`Cotton`, for tags `p` and `h3`, in both renderers. -/
theorem claim_C2_description_fragments_witness :
    generate_description_html
      [⟨("fabric").data, ("Fabric").data, ("p").data, 0⟩]
      [(("fabric").data, PyCell.pstr ("Cotton").data)] =
      ("<p>Fabric: Cotton</p>").data ∧
    generate_description_html
      [⟨("fabric").data, ("Fabric").data, ("h3").data, 0⟩]
      [(("fabric").data, PyCell.pstr ("Cotton").data)] =
      ("<p><h3>Fabric : </h3> Cotton</p>").data ∧
    generate_dynamic_description
      [⟨("fabric").data, ("Fabric").data, ("h3").data, 0⟩]
      [(("fabric").data, PyCell.pstr ("Cotton").data)] =
      ("<p><h3>Fabric : </h3> Cotton</p>").data := by
  have h1 := claim_C2_description_fragments ("fabric").data ("Fabric").data ("p").data 0
    (PyCell.pstr ("Cotton").data) ("Cotton").data (by decide) (by decide) (by decide)
    (by decide) (by decide) (by decide) (by decide) (by decide) (by decide)
  have h2 := claim_C2_description_fragments ("fabric").data ("Fabric").data ("h3").data 0
    (PyCell.pstr ("Cotton").data) ("Cotton").data (by decide) (by decide) (by decide)
    (by decide) (by decide) (by decide) (by decide) (by decide) (by decide)
  refine ⟨?_, ?_, ?_⟩
  · rw [h1.1 rfl]
    decide
  · rw [h2.2.1 (by decide)]
    decide
  · rw [h2.2.2]
    decide

/-- C2 counterexample: with tag `p` the generator applied during CSV
generation nests a `<p>` around the label inside the enclosing `<p>` instead
of producing the claimed `<p>Fabric: Cotton</p>`. -/
theorem claim_C2_counterexample :
    generate_dynamic_description
      [⟨("fabric").data, ("Fabric").data, ("p").data, 0⟩]
      [(("fabric").data, PyCell.pstr ("Cotton").data)] =
      ("<p><p>Fabric : </p> Cotton</p>").data ∧
    ¬ generate_dynamic_description
      [⟨("fabric").data, ("Fabric").data, ("p").data, 0⟩]
      [(("fabric").data, PyCell.pstr ("Cotton").data)] =
      ("<p>Fabric: Cotton</p>").data := by
  exact ⟨by decide, by decide⟩

/-! ## The compare-price and variant-explosion pipeline

The slice of `DataProcessor` (backend/data_processor.py) that the
compare-price and display-size claims are about: `_extract_compare_price`,
`_process_variants` restricted to one source row, the fresh-session
compare-price store of `initialize_variants`, the compare-price half of
`_apply_variant_mappings`, and the compare-price shaping shared by
`_create_main_product_row` and `_create_variant_row`. -/

/-- Python truthiness of a cell (`float('nan')` is truthy). -/
def pyTruthy : PyCell → Bool
  | .na => true
  | .pstr s => !(decide (s = []))

/-- Embedding of `get_column_value` (helpers/utils.py lines 76-81). -/
def get_column_value (row : List (Str × PyCell)) (column_mapping : List (Str × Str))
    (standard_name : Str) (default : PyCell) : PyCell :=
  match dget column_mapping standard_name with
  | some actual =>
      if !(decide (actual = [])) && dContainsKey row actual then
        (dget row actual).getD .na
      else default
  | none => default

/-- String mode of `clean_value` (helpers/utils.py lines 83-98,
`is_numeric=False`): `""` for NaN, for the literal strings `nan` / `NaN`,
or for a blank; the stripped string otherwise. -/
def utils_clean_value (value : PyCell) : Str :=
  if pyIsNa value || decide (pyCellStr value = ("nan").data) ||
      decide (pyCellStr value = ("NaN").data) ||
      decide (pyStrip (pyCellStr value) = []) then []
  else pyStrip (pyCellStr value)

/-- A value of the emitted "Variant Compare At Price" field: the empty
string, a Python int, or a non-integral Python float. -/
inductive OutCell : Type where
  | emptyStr : OutCell
  | outInt (i : Int) : OutCell
  | outFloat (q : Frac) : OutCell
deriving DecidableEq

/-- `pd.isna` on a float. -/
def pyFloatIsNa : PyFloat → Bool
  | .nan => true
  | _ => false

/-- Python `x == 0` on a float. -/
def pyFloatIsZero : PyFloat → Bool
  | .fin q => Frac.bzero q
  | _ => false

/-- Python `x >= 0` on a float (`nan >= 0` is false). -/
def pyFloatNonneg : PyFloat → Bool
  | .fin q => Frac.bnonneg q
  | .inf neg => !neg
  | .nan => false

/-- Numeric mode of `clean_value` (helpers/utils.py, `is_numeric=True`):
NaN falls back to the numeric default 0, a whole number loses its decimals;
`int()` of an infinity raises OverflowError, which the local
`except (ValueError, TypeError)` does not catch. -/
def utils_clean_value_numeric : PyFloat → Except PyErr OutCell
  | .nan => .ok (.outInt 0)
  | .inf _ => .error .overflowError
  | .fin q =>
      if Frac.beq q ⟨q.trunc, 1, Nat.one_pos⟩ then .ok (.outInt q.trunc)
      else .ok (.outFloat q)

/-- The configuration switches this pipeline slice reads. -/
structure Config : Type where
  bulk_compare_price_mode : Bool
  bulk_compare_price : Frac
  use_expected_compare_price : Bool
  default_compare_price : Frac
  bulk_qty_mode : Bool
  bulk_qty : Int
  use_expected_qty : Bool
  fallback_qty : Int
  default_qty : Int
deriving DecidableEq

/-- The mapped compare-price cell `_extract_compare_price` reads (the local
`compare_price_value`, with `get_column_value`'s default `""`). -/
def comparePriceCell (row : List (Str × PyCell)) (column_mapping : List (Str × Str)) :
    PyCell :=
  get_column_value row column_mapping (("Variant Compare At Price").data) (.pstr [])

/-- Embedding of `DataProcessor._extract_compare_price` (data_processor.py
lines 239-259): the bulk value when bulk mode is on; otherwise, with
expected extraction on, a present, truthy, non-NaN, non-blank cell parsing
to a float `>= 0` — and `None` (explicit absence) in every other case. -/
def extract_compare_price (row : List (Str × PyCell)) (column_mapping : List (Str × Str))
    (config : Config) : Option PyFloat :=
  if config.bulk_compare_price_mode then some (.fin config.bulk_compare_price)
  else if config.use_expected_compare_price then
    if pyTruthy (comparePriceCell row column_mapping) &&
        !(pyIsNa (comparePriceCell row column_mapping)) &&
        !(decide (pyStrip (pyCellStr (comparePriceCell row column_mapping)) = [])) then
      match pyFloatOfStr (pyStrip (pyCellStr (comparePriceCell row column_mapping))) with
      | some f => if pyFloatNonneg f then some f else none
      | none => none
    else none
  else some (.fin config.default_compare_price)

/-- Embedding of `DataProcessor._extract_quantity` (lines 225-237). -/
def extract_quantity (size : Str) (size_quantity_map : List (Str × Int))
    (config : Config) : Int :=
  if config.bulk_qty_mode then config.bulk_qty
  else if config.use_expected_qty then
    if 0 < (dget size_quantity_map size).getD 0 then (dget size_quantity_map size).getD 0
    else config.fallback_qty
  else config.default_qty

/-- One exploded variant row: the source row plus the fields
`_process_variants` adds. -/
structure ExplodedRow : Type where
  row : List (Str × PyCell)
  sizes_list : Str
  display_size : Str
  colours_list : Str
  extracted_quantity : Int
  uploaded_compare_price : Option PyFloat
deriving DecidableEq

/-- `size.split('-')[0].strip() if size and '-' in size else size`
(data_processor.py line 209). -/
def display_size_of (size : Str) : Str :=
  if !(decide (size = [])) && !(decide (countChar '-' size = 0)) then
    pyStrip ((splitChar '-' size).headD [])
  else size

/-- The `Option1 Value`-or-`size` cell `_process_variants` reads
(lines 184-185). -/
def sizesValue (row : List (Str × PyCell)) (column_mapping : List (Str × Str)) : PyCell :=
  if pyTruthy (get_column_value row column_mapping (("Option1 Value").data) (.pstr [])) then
    get_column_value row column_mapping (("Option1 Value").data) (.pstr [])
  else get_column_value row column_mapping (("size").data) (.pstr [])

/-- The `Option2 Value`-or-`colour` cell (lines 186-187). -/
def coloursValue (row : List (Str × PyCell)) (column_mapping : List (Str × Str)) : PyCell :=
  if pyTruthy (get_column_value row column_mapping (("Option2 Value").data) (.pstr [])) then
    get_column_value row column_mapping (("Option2 Value").data) (.pstr [])
  else get_column_value row column_mapping (("colour").data) (.pstr [])

/-- The colour list (line 190): split on commas, strip, drop blanks. -/
def colorsOf (row : List (Str × PyCell)) (column_mapping : List (Str × Str)) : List Str :=
  ((splitChar ',' (utils_clean_value (coloursValue row column_mapping))).map pyStrip).filter
    (fun c => !(decide (c = [])))

/-- The size × colour explosion of one source row (lines 195-219), after
sizes have been sorted: blank size and colour lists fall back to a single
empty entry. -/
def explode_one (sorted_sizes : List Str) (size_quantity_map : List (Str × Int))
    (colors : List Str) (ucp : Option PyFloat) (row : List (Str × PyCell))
    (config : Config) : List ExplodedRow :=
  (if sorted_sizes = [] then [[]] else sorted_sizes).flatMap (fun size =>
    (if colors = [] then [[]] else colors).map (fun color =>
      { row := row
        sizes_list := size
        display_size := display_size_of size
        colours_list := color
        extracted_quantity := extract_quantity size
          (if sorted_sizes = [] then [([], (0 : Int))] else size_quantity_map) config
        uploaded_compare_price := ucp }))

/-- Embedding of `DataProcessor._process_variants` restricted to one source
row (lines 181-221); an uncaught sorting error (cf. C9) escapes. -/
def process_variants_row (row : List (Str × PyCell)) (column_mapping : List (Str × Str))
    (config : Config) : Except PyErr (List ExplodedRow) :=
  match sort_sizes_with_quantities (utils_clean_value (sizesValue row column_mapping)) with
  | .error e => .error e
  | .ok (sorted_sizes, sqm) =>
      .ok (explode_one sorted_sizes sqm (colorsOf row column_mapping)
        (extract_compare_price row column_mapping config) row config)

/-- The `f"{size}|{color}|{title}"` key of `initialize_variants`
(lines 30-40), built from `clean_value`-cleaned parts. -/
def init_variant_key (er : ExplodedRow) (column_mapping : List (Str × Str)) : Str :=
  utils_clean_value (.pstr er.sizes_list) ++ '|' ::
    (utils_clean_value (.pstr er.colours_list) ++ '|' ::
      utils_clean_value (get_column_value er.row column_mapping (("Title").data)
        (.pstr ("Unknown").data)))

/-- One step of the first-occurrence-wins recording of
`extracted_compare_prices` in `initialize_variants` (lines 42-47). -/
def initStoreStep (column_mapping : List (Str × Str))
    (store : List (Str × Option PyFloat)) (er : ExplodedRow) :
    List (Str × Option PyFloat) :=
  if dContainsKey store (init_variant_key er column_mapping) then store
  else dinsert store (init_variant_key er column_mapping) er.uploaded_compare_price

/-- The compare-price store a fresh session holds after
`initialize_variants` (lines 69-79): the first extracted price recorded for
each variant key, `None` meaning blank. -/
def init_compare_store (ers : List ExplodedRow) (column_mapping : List (Str × Str)) :
    List (Str × Option PyFloat) :=
  ers.foldl (initStoreStep column_mapping) []

/-- The `_variant_key` built in `_apply_variant_mappings` (lines 309-312):
stripped, not `clean_value`-cleaned. -/
def apply_variant_key (er : ExplodedRow) (column_mapping : List (Str × Str)) : Str :=
  pyStrip er.sizes_list ++ '|' :: (pyStrip er.colours_list ++ '|' ::
    pyStrip (pyCellStr (get_column_value er.row column_mapping (("Title").data)
      (.pstr ("Unknown").data))))

/-- The final per-cell normalisation of `_apply_variant_mappings`
(lines 343-346): `None if pd.isna(x) or x == '' else float(x) if x != 0
else None` — an explicit zero becomes `None`, exactly like absence. -/
def apply_compare_lambda : Option PyFloat → Option PyFloat
  | none => none
  | some f => if pyFloatIsNa f then none else if pyFloatIsZero f then none else some f

/-- The "Variant Compare At Price" value `_apply_variant_mappings`
(lines 327-346) assigns to one exploded row, in a session where
`initialize_variants` has run (`variant_compare_prices` exists). -/
def apply_compare (store : List (Str × Option PyFloat)) (er : ExplodedRow)
    (column_mapping : List (Str × Str)) (config : Config) : Option PyFloat :=
  apply_compare_lambda
    (if config.bulk_compare_price_mode then some (.fin config.bulk_compare_price)
     else (dget store (apply_variant_key er column_mapping)).getD none)

/-- The compare-price shaping shared by `_create_main_product_row`
(lines 386-391) and `_create_variant_row` (lines 492-497): NaN, `''` and
`0` all become the empty string; anything else goes through numeric
`clean_value` (a float `==` the string `''` is always false in Python, so
that disjunct is inert on floats). -/
def shape_compare (x : Option PyFloat) : Except PyErr OutCell :=
  match x with
  | none => .ok .emptyStr
  | some f =>
      if pyFloatIsNa f || pyFloatIsZero f then .ok .emptyStr
      else utils_clean_value_numeric f

theorem explode_one_fields (sorted_sizes : List Str) (sqm : List (Str × Int))
    (colors : List Str) (ucp : Option PyFloat) (row : List (Str × PyCell))
    (config : Config) :
    ∀ er ∈ explode_one sorted_sizes sqm colors ucp row config,
      er.uploaded_compare_price = ucp ∧ er.row = row ∧
      er.display_size = display_size_of er.sizes_list := by
  intro er her
  simp only [explode_one] at her
  rcases List.mem_flatMap.mp her with ⟨size, _, hm⟩
  rcases List.mem_map.mp hm with ⟨color, _, he⟩
  rw [← he]
  exact ⟨rfl, rfl, rfl⟩

theorem process_variants_row_spec (row : List (Str × PyCell))
    (column_mapping : List (Str × Str)) (config : Config)
    (ers : List ExplodedRow)
    (h : process_variants_row row column_mapping config = .ok ers) :
    ∀ er ∈ ers,
      er.uploaded_compare_price = extract_compare_price row column_mapping config ∧
      er.row = row ∧ er.display_size = display_size_of er.sizes_list := by
  rw [process_variants_row] at h
  rcases hs : sort_sizes_with_quantities
      (utils_clean_value (sizesValue row column_mapping)) with e | ⟨ss, sqm⟩
  · rw [hs] at h
    exact absurd h (by simp)
  · rw [hs] at h
    replace h : Except.ok (ε := PyErr) (explode_one ss sqm (colorsOf row column_mapping)
        (extract_compare_price row column_mapping config) row config) = Except.ok ers := h
    injection h with h
    subst h
    exact explode_one_fields ss sqm _ _ row config

theorem init_compare_store_values (column_mapping : List (Str × Str))
    (P : Option PyFloat → Prop) :
    ∀ (l : List ExplodedRow) (acc : List (Str × Option PyFloat)),
      (∀ k v, dget acc k = some v → P v) →
      (∀ er ∈ l, P er.uploaded_compare_price) →
      ∀ k v, dget (l.foldl (initStoreStep column_mapping) acc) k = some v → P v := by
  intro l
  induction l with
  | nil =>
      intro acc hacc _
      exact hacc
  | cons er ers ih =>
      intro acc hacc hl
      rw [List.foldl_cons]
      apply ih
      · intro k v hv
        rw [initStoreStep] at hv
        by_cases hc : dContainsKey acc (init_variant_key er column_mapping) = true
        · rw [if_pos hc] at hv
          exact hacc k v hv
        · rw [if_neg hc, dget_dinsert] at hv
          by_cases hk : k = init_variant_key er column_mapping
          · rw [if_pos hk] at hv
            injection hv with hv
            exact hv ▸ hl er (List.mem_cons_self _ _)
          · rw [if_neg hk] at hv
            exact hacc k v hv
      · intro er2 her2
        exact hl er2 (List.mem_cons_of_mem _ her2)

/-- **C1.** A blank (absent, empty or whitespace) mapped compare-price cell,
with bulk mode off and expected extraction on, extracts as the explicit
`None`; the explosion carries `None` to every variant row of that source
row, the fresh-session store records only `None`, override application
yields `None`, and the shaped "Variant Compare At Price" cell of every
emitted row is the empty string — a value distinct from the numbers 0 and
0.0. -/
theorem claim_C1_blank_compare (row : List (Str × PyCell))
    (column_mapping : List (Str × Str)) (config : Config)
    (hbulk : config.bulk_compare_price_mode = false)
    (huse : config.use_expected_compare_price = true)
    (hblank : pyIsNa (comparePriceCell row column_mapping) = true ∨
      pyStrip (pyCellStr (comparePriceCell row column_mapping)) = []) :
    extract_compare_price row column_mapping config = none ∧
    (∀ ers, process_variants_row row column_mapping config = .ok ers →
      (∀ er ∈ ers, er.uploaded_compare_price = none) ∧
      (∀ k v, dget (init_compare_store ers column_mapping) k = some v → v = none) ∧
      (∀ er ∈ ers,
        apply_compare (init_compare_store ers column_mapping) er column_mapping config =
          none ∧
        shape_compare (apply_compare (init_compare_store ers column_mapping) er
          column_mapping config) = .ok OutCell.emptyStr)) ∧
    (∀ i : Int, OutCell.emptyStr ≠ OutCell.outInt i) ∧
    (∀ q : Frac, OutCell.emptyStr ≠ OutCell.outFloat q) := by
  have hguard : (pyTruthy (comparePriceCell row column_mapping) &&
      !(pyIsNa (comparePriceCell row column_mapping)) &&
      !(decide (pyStrip (pyCellStr (comparePriceCell row column_mapping)) = []))) = false := by
    rcases hblank with h | h
    · rw [h]
      simp
    · simp [h]
  have hex : extract_compare_price row column_mapping config = none := by
    rw [extract_compare_price, hbulk, huse, if_neg Bool.false_ne_true, if_pos rfl,
      if_neg (ne_true_of_eq_false hguard)]
  refine ⟨hex, ?_, fun i h => OutCell.noConfusion h, fun q h => OutCell.noConfusion h⟩
  intro ers hpv
  have hucp : ∀ er ∈ ers, er.uploaded_compare_price = none := by
    intro er her
    rw [(process_variants_row_spec row column_mapping config ers hpv er her).1, hex]
  have hstore : ∀ k v, dget (init_compare_store ers column_mapping) k = some v →
      v = none := by
    intro k v hv
    exact init_compare_store_values column_mapping (fun v => v = none) ers []
      (fun k v hv => absurd hv (by simp [dget_nil])) hucp k v hv
  have happly : ∀ er ∈ ers,
      apply_compare (init_compare_store ers column_mapping) er column_mapping config =
        none := by
    intro er _
    rw [apply_compare, hbulk, if_neg Bool.false_ne_true]
    rcases hdg : dget (init_compare_store ers column_mapping)
        (apply_variant_key er column_mapping) with _ | v
    · rfl
    · rw [hstore _ v hdg]
      rfl
  refine ⟨hucp, hstore, ?_⟩
  intro er her
  refine ⟨happly er her, ?_⟩
  rw [happly er her]
  rfl

/-- **C5 (amended).** The pipeline deliberately conflates a source compare
price of exactly 0 with absence: `_apply_variant_mappings` maps both `None`
and `0` to `None`, and the row shaping maps both to the empty string, so
zero and "no compare price" serialize identically; only a nonzero price
survives to the output. -/
theorem claim_C5_zero_compare (q : Frac) :
    (Frac.bzero q = true → apply_compare_lambda (some (.fin q)) = none) ∧
    apply_compare_lambda none = none ∧
    (Frac.bzero q = true → shape_compare (some (.fin q)) = .ok OutCell.emptyStr ∧
      shape_compare (apply_compare_lambda (some (.fin q))) =
        shape_compare (apply_compare_lambda none)) ∧
    (Frac.bzero q = false → Frac.bnonneg q = true →
      apply_compare_lambda (some (.fin q)) = some (.fin q) ∧
      (∀ c, shape_compare (some (.fin q)) = .ok c → c ≠ OutCell.emptyStr)) := by
  have hsome : apply_compare_lambda (some (.fin q)) =
      if pyFloatIsNa (.fin q) then none
      else if pyFloatIsZero (.fin q) then none else some (.fin q) := rfl
  have hshape : shape_compare (some (.fin q)) =
      if pyFloatIsNa (.fin q) || pyFloatIsZero (.fin q) then .ok OutCell.emptyStr
      else utils_clean_value_numeric (.fin q) := rfl
  have hna : pyFloatIsNa (.fin q) = false := rfl
  refine ⟨?_, rfl, ?_, ?_⟩
  · intro h
    rw [hsome, if_neg (ne_true_of_eq_false hna),
      if_pos (show pyFloatIsZero (.fin q) = true from h)]
  · intro h
    have hz : shape_compare (some (.fin q)) = .ok OutCell.emptyStr := by
      rw [hshape, if_pos (show (pyFloatIsNa (.fin q) || pyFloatIsZero (.fin q)) = true by
        rw [hna]
        simp only [Bool.false_or]
        exact h)]
    refine ⟨hz, ?_⟩
    rw [hsome, if_neg (ne_true_of_eq_false hna),
      if_pos (show pyFloatIsZero (.fin q) = true from h)]
    rfl
  · intro h1 h2
    have hl : apply_compare_lambda (some (.fin q)) = some (.fin q) := by
      rw [hsome, if_neg (ne_true_of_eq_false hna),
        if_neg (ne_true_of_eq_false (show pyFloatIsZero (.fin q) = false from h1))]
    refine ⟨hl, ?_⟩
    intro c hc
    rw [hshape, if_neg (ne_true_of_eq_false (show
        (pyFloatIsNa (.fin q) || pyFloatIsZero (.fin q)) = false by
      rw [hna]
      simp only [Bool.false_or]
      exact h1))] at hc
    rw [utils_clean_value_numeric] at hc
    by_cases hb : Frac.beq q ⟨q.trunc, 1, Nat.one_pos⟩ = true
    · rw [if_pos hb] at hc
      injection hc with hc
      rw [← hc]
      exact fun hcontra => OutCell.noConfusion hcontra
    · rw [if_neg hb] at hc
      injection hc with hc
      rw [← hc]
      exact fun hcontra => OutCell.noConfusion hcontra

/-- **C8 (amended).** For every exploded row, `display_size` equals the
full size token when the token has no hyphen, and the stripped portion
before the FIRST hyphen whenever the (non-empty) token contains any hyphen
— even an opaque token with no embedded quantity; the full token stays in
`sizes_list`, the truncation only affects `display_size`. -/
theorem claim_C8_display_size (row : List (Str × PyCell))
    (column_mapping : List (Str × Str)) (config : Config) (ers : List ExplodedRow)
    (h : process_variants_row row column_mapping config = .ok ers) :
    ∀ er ∈ ers,
      (countChar '-' er.sizes_list = 0 → er.display_size = er.sizes_list) ∧
      (er.sizes_list ≠ [] → countChar '-' er.sizes_list ≠ 0 →
        er.display_size = pyStrip ((splitChar '-' er.sizes_list).headD [])) := by
  intro er her
  have hd := (process_variants_row_spec row column_mapping config ers h er her).2.2
  constructor
  · intro h0
    rw [hd, display_size_of, if_neg (by simp [h0])]
  · intro h1 h2
    rw [hd, display_size_of, if_pos (by simp [h1, h2])]

/-! ## Concrete runs of the compare-price pipeline -/

/-- A configuration with bulk modes off, expected extraction on, and
fallback quantity 7. -/
def cfgStd : Config :=
  ⟨false, ⟨0, 1, Nat.one_pos⟩, true, ⟨0, 1, Nat.one_pos⟩, false, 10, true, 7, 10⟩

/-- A column mapping for a small test table. -/
def cmStd : List (Str × Str) :=
  [((("Variant Compare At Price").data), ("cmp").data),
   ((("Title").data), ("title").data),
   ((("size").data), ("size").data)]

/-- A source row whose compare-price cell is whitespace only. -/
def rowBlankCompare : List (Str × PyCell) :=
  [(("title").data, .pstr ("Shirt").data), (("size").data, .pstr ("M").data),
   (("cmp").data, .pstr ("   ").data)]

/-- Its explosion: one variant, size `M`, no colour, fallback quantity,
no compare price. -/
def ersBlank : List ExplodedRow :=
  [⟨rowBlankCompare, ("M").data, ("M").data, [], 7, none⟩]

/-- A source row whose compare-price cell is exactly `0`. -/
def rowZeroCompare : List (Str × PyCell) :=
  [(("title").data, .pstr ("Shirt").data), (("size").data, .pstr ("M").data),
   (("cmp").data, .pstr ("0").data)]

/-- A source row whose size list holds an opaque two-hyphen token. -/
def rowOpaque : List (Str × PyCell) :=
  [(("title").data, .pstr ("Shirt").data), (("size").data, .pstr ("A-B-C, XL").data)]

/-- The exploded `XL` variant of `rowOpaque`. -/
def erXL : ExplodedRow := ⟨rowOpaque, ("XL").data, ("XL").data, [], 7, none⟩

/-- The exploded `A-B-C` variant of `rowOpaque`: `display_size` is the part
before the first hyphen. -/
def erABC : ExplodedRow := ⟨rowOpaque, ("A-B-C").data, ("A").data, [], 7, none⟩

/-- The explosion of `rowOpaque` (standard sizes sort before opaque ones). -/
def ersOpaque : List ExplodedRow := [erXL, erABC]

/-- C1 witness: the whitespace compare-price cell extracts as `None` and
every emitted variant of that source row carries the empty string. -/
theorem claim_C1_blank_compare_witness :
    extract_compare_price rowBlankCompare cmStd cfgStd = none ∧
    process_variants_row rowBlankCompare cmStd cfgStd = .ok ersBlank ∧
    (∀ er ∈ ersBlank,
      shape_compare (apply_compare (init_compare_store ersBlank cmStd) er cmStd cfgStd) =
        .ok OutCell.emptyStr) := by
  have h := claim_C1_blank_compare rowBlankCompare cmStd cfgStd rfl rfl (Or.inr (by decide))
  have hpv : process_variants_row rowBlankCompare cmStd cfgStd = .ok ersBlank := by decide
  exact ⟨h.1, hpv, fun er her => ((h.2.1 ersBlank hpv).2.2 er her).2⟩

/-- C5 witness: zero maps to `None` and the empty string, a nonzero price
survives. -/
theorem claim_C5_zero_compare_witness :
    apply_compare_lambda (some (.fin ⟨0, 1, Nat.one_pos⟩)) = none ∧
    shape_compare (some (.fin ⟨0, 1, Nat.one_pos⟩)) = .ok OutCell.emptyStr ∧
    apply_compare_lambda (some (.fin ⟨5, 1, Nat.one_pos⟩)) =
      some (.fin ⟨5, 1, Nat.one_pos⟩) ∧
    (∀ c, shape_compare (some (.fin ⟨5, 1, Nat.one_pos⟩)) = .ok c →
      c ≠ OutCell.emptyStr) := by
  have h0 := claim_C5_zero_compare ⟨0, 1, Nat.one_pos⟩
  have h5 := claim_C5_zero_compare ⟨5, 1, Nat.one_pos⟩
  exact ⟨h0.1 (by decide), (h0.2.2.1 (by decide)).1,
    (h5.2.2.2 (by decide) (by decide)).1,
    fun c hc => (h5.2.2.2 (by decide) (by decide)).2 c hc⟩

/-- C5 counterexample: a source compare price of exactly 0 and a blank one
are distinguished at extraction (`some 0` vs `None`) but serialize to the
same empty string — zero is conflated with "no compare price". -/
theorem claim_C5_counterexample :
    extract_compare_price rowZeroCompare cmStd cfgStd =
      some (.fin ⟨0, 1, Nat.one_pos⟩) ∧
    extract_compare_price rowBlankCompare cmStd cfgStd = none ∧
    some (PyFloat.fin ⟨0, 1, Nat.one_pos⟩) ≠ (none : Option PyFloat) ∧
    shape_compare (apply_compare_lambda (some (.fin ⟨0, 1, Nat.one_pos⟩))) =
      .ok OutCell.emptyStr ∧
    shape_compare (apply_compare_lambda none) = .ok OutCell.emptyStr := by
  exact ⟨by decide, by decide, by decide, by decide, by decide⟩

/-- C8 witness: a hyphen-free token keeps its display form; the two-hyphen
token `A-B-C` displays as the stripped part before the first hyphen. -/
theorem claim_C8_display_size_witness :
    process_variants_row rowOpaque cmStd cfgStd = .ok ersOpaque ∧
    erXL ∈ ersOpaque ∧ countChar '-' erXL.sizes_list = 0 ∧
    erXL.display_size = erXL.sizes_list ∧
    erABC ∈ ersOpaque ∧
    erABC.display_size = pyStrip ((splitChar '-' erABC.sizes_list).headD []) := by
  have hpv : process_variants_row rowOpaque cmStd cfgStd = .ok ersOpaque := by decide
  have h := claim_C8_display_size rowOpaque cmStd cfgStd ersOpaque hpv
  refine ⟨hpv, by decide, by decide, ?_, by decide, ?_⟩
  · exact (h erXL (by decide)).1 (by decide)
  · exact (h erABC (by decide)).2 (by decide) (by decide)

/-- C8 counterexample: the opaque token `A-B-C` has no embedded quantity
(it parses to itself with quantity 0), yet its display form is `A`, not the
whole token as claimed. -/
theorem claim_C8_counterexample :
    process_variants_row rowOpaque cmStd cfgStd = .ok ersOpaque ∧
    erABC ∈ ersOpaque ∧
    parse_size_and_quantity erABC.sizes_list = .ok (erABC.sizes_list, 0) ∧
    erABC.display_size ≠ erABC.sizes_list := by
  exact ⟨by decide, by decide, by decide, by decide⟩

example : parse_size_and_quantity ("M-5".data) = .ok ("M".data, 5) := by decide
example : parse_size_and_quantity (" CuStOm ".data) = .ok ("Custom".data, 0) := by decide
example : parse_size_and_quantity ("M-5.9".data) = .ok ("M".data, 5) := by decide
example : parse_size_and_quantity ("A-B-C".data) = .ok ("A-B-C".data, 0) := by decide
example : parse_size_and_quantity ("M-x".data) = .ok ("M-x".data, 0) := by decide
example : parse_size_and_quantity ("M-inf".data) = .error .overflowError := by decide
example : parse_size_and_quantity ("M-nan".data) = .ok ("M-nan".data, 0) := by decide
example : parse_size_and_quantity ("M-5e1".data) = .ok ("M".data, 50) := by decide
example : sort_sizes_with_quantities ("M-5, S-3, XL".data) =
    .ok (["S".data, "M".data, "XL".data], [("M".data, 5), ("S".data, 3), ("XL".data, 0)]) := by
  decide
example : sort_sizes_with_quantities ("custom-5".data) =
    .ok (["custom".data], [("custom".data, 5)]) := by decide
example : sort_sizes_with_quantities ("custom".data) =
    .ok (["Custom".data], [("Custom".data, 0)]) := by decide
example : sort_sizes_with_quantities ("-5".data) = .ok ([[]], [([], 5)]) := by decide
example : sort_sizes_with_quantities ("".data) = .ok ([], []) := by decide
example : sort_sizes_with_quantities ("10,2,X4, Custom, Zed, Abc".data) =
    .ok (["2".data, "X4".data, "10".data, "Abc".data, "Custom".data, "Zed".data],
         [("10".data, 0), ("2".data, 0), ("X4".data, 0), ("Custom".data, 0),
          ("Zed".data, 0), ("Abc".data, 0)]) := by decide
